import Mathlib

/-!
Verification of the AI completion core of the `pai-bot` repository: the
provider-routing gateway (`internal/ai/router.go`), the in-memory
conversation store (`internal/agent`, MemoryStore), and the conversation
engine with its compaction protocol (`internal/agent`, package agent).

The Go code is shallowly embedded: stateful code becomes explicit state
passing, fallible code returns `Except`/`Option`, provider calls become
functions from requests to results.  Conversation ids (random 16-byte hex
strings produced by `generateID`) are modelled as fresh naturals drawn from
a counter; `time.Now()` is modelled as a natural-number clock stored next
to the map.  The fire-and-forget event logger (`logEventAsync`) runs in a
goroutine whose result is discarded, so it cannot influence any state or
return value modelled here and is not represented.
-/

namespace Pai

/-! ### AI gateway types (package ai) -/

/-- `type TaskType int` with the four constants `TaskTeaching`, `TaskGrading`,
`TaskNudge`, `TaskAnalysis`. -/
inductive TaskType where
  | teaching
  | grading
  | nudge
  | analysis
deriving DecidableEq, Repr

/-- `ai.Message`: role, content and optional image URLs. -/
structure Message where
  role : String
  content : String
  imageURLs : List String := []
deriving DecidableEq, Repr

/-- `ai.CompletionRequest`.  The `Temperature float64` field is omitted: the
engine never sets it (it always carries Go's zero value) and floating point
is outside this embedding. -/
structure CompletionRequest where
  messages : List Message
  model : String := ""
  maxTokens : Nat := 0
  task : TaskType := .teaching
deriving DecidableEq, Repr

/-- `ai.CompletionResponse`. -/
structure CompletionResponse where
  content : String
  model : String := ""
  inputTokens : Nat := 0
  outputTokens : Nat := 0
deriving DecidableEq, Repr

/-- A provider's `Complete` method: `Complete(ctx, req) → (resp, err)`.
The context argument is dropped (it is only threaded into HTTP calls). -/
def ProviderFun : Type := CompletionRequest → Except String CompletionResponse

/-! ### Router (src/internal/ai/router.go) -/

/-- Association-list lookup, modelling a read from a Go `map[string]Provider`. -/
def mapLookup : List (String × ProviderFun) → String → Option ProviderFun
  | [], _ => none
  | (k, v) :: rest, name => if k = name then some v else mapLookup rest name

/-- Association-list overwrite-or-add, modelling `m[name] = provider`. -/
def mapInsert : List (String × ProviderFun) → String → ProviderFun → List (String × ProviderFun)
  | [], name, p => [(name, p)]
  | (k, v) :: rest, name, p =>
      if k = name then (name, p) :: rest else (k, v) :: mapInsert rest name p

/-- `ai.Router`: a provider map plus the append-only fallback order.
The mutex only guards concurrent access and has no sequential content. -/
structure Router where
  providers : List (String × ProviderFun) := []
  fallback : List String := []

/-- `NewRouter`. -/
def Router.new : Router := {}

/-- `Router.Register`: store the provider under `name` and append `name`
to the fallback chain. -/
def Router.Register (r : Router) (name : String) (p : ProviderFun) : Router :=
  { providers := mapInsert r.providers name p
    fallback := r.fallback ++ [name] }

/-- The loop body of `Router.Complete` over the remaining fallback names.
When a name is missing from the provider map the Go code would dereference
a nil interface; that situation is unreachable for routers built through
`Register` (the map and the fallback list are kept in sync), and the model
skips the name. -/
def Router.CompleteAux (r : Router) (req : CompletionRequest) :
    List String → Except String CompletionResponse
  | [] => .error "all AI providers failed"
  | name :: rest =>
      match mapLookup r.providers name with
      | none => Router.CompleteAux r req rest
      | some p =>
          match p req with
          | .error _ => Router.CompleteAux r req rest
          | .ok resp => .ok resp

/-- `Router.Complete`: try each provider in fallback order; return the first
success; if the list is exhausted fail with the aggregate error. -/
def Router.Complete (r : Router) (req : CompletionRequest) : Except String CompletionResponse :=
  Router.CompleteAux r req r.fallback

/-- `Router.HasProvider`: true iff at least one provider is registered. -/
def Router.HasProvider (r : Router) : Bool :=
  decide (0 < r.providers.length)

/-- Registering a list of named providers in order, starting from `NewRouter()`. -/
def registerList (ps : List (String × ProviderFun)) : Router :=
  ps.foldl (fun r p => r.Register p.1 p.2) Router.new

/-- The pure content of the fallback loop: try a list of providers in order. -/
def tryProviders (req : CompletionRequest) : List ProviderFun → Except String CompletionResponse
  | [] => .error "all AI providers failed"
  | p :: rest =>
      match p req with
      | .error _ => tryProviders req rest
      | .ok resp => .ok resp

/-- An empty completion request, used by concrete witnesses. -/
def reqNil : CompletionRequest := { messages := [] }

/-- A provider whose `Complete` always fails. -/
def pFail : ProviderFun := fun _ => .error "provider down"

/-- A provider whose `Complete` always succeeds. -/
def pOk : ProviderFun :=
  fun _ => .ok { content := "answer", model := "m", inputTokens := 1, outputTokens := 2 }

/-! ### Conversation store (package agent: `StoredMessage`, `Conversation`,
`MemoryStore`; the Go source accompanies store_test.go) -/

/-- `agent.StoredMessage`.  `time.Time` values are modelled as `Nat` clock
ticks, with `0` standing for Go's zero time. -/
structure StoredMessage where
  role : String
  content : String
  model : String := ""
  inputTokens : Nat := 0
  outputTokens : Nat := 0
  createdAt : Nat := 0
deriving DecidableEq, Repr

/-- `agent.Conversation`.  The id (a random 16-byte hex string from
`generateID` in Go) is modelled as a `Nat` drawn from a fresh counter; the
only property of `generateID` the code relies on is that ids are unique. -/
structure Conversation where
  id : Nat := 0
  userID : String := ""
  topicID : String := ""
  state : String := ""
  messages : List StoredMessage := []
  summary : String := ""
  compactedAt : Nat := 0
  startedAt : Nat := 0
  endedAt : Option Nat := none
deriving DecidableEq, Repr

/-- `agent.MemoryStore`: the conversation map (Go `map[string]*Conversation`,
here an association list keyed by id), the id counter standing in for
`generateID`, and a clock standing in for `time.Now()`. -/
structure MemoryStore where
  conversations : List (Nat × Conversation) := []
  nextID : Nat := 0
  clock : Nat := 1
deriving DecidableEq, Repr

/-- `NewMemoryStore()`. -/
def MemoryStore.new : MemoryStore := {}

/-- `MemoryStore.GetConversation`: look the id up in the map; Go returns a
"conversation not found" error when absent, modelled as `none`. -/
def MemoryStore.GetConversation (s : MemoryStore) (id : Nat) : Option Conversation :=
  (s.conversations.find? (fun p => p.1 == id)).map (·.2)

/-- `MemoryStore.GetActiveConversation`: some conversation of this user with
`EndedAt == nil`, if one exists.  Go iterates the map in unspecified order;
the model returns the first match in the list — under the single-active
invariant the two coincide. -/
def MemoryStore.GetActiveConversation (s : MemoryStore) (userID : String) : Option Conversation :=
  (s.conversations.find? (fun p => p.2.userID == userID && p.2.endedAt.isNone)).map (·.2)

/-- `MemoryStore.CreateConversation`: assign a fresh id and `StartedAt`,
store the conversation, return the id.  (The Go method's error result is
always nil.) -/
def MemoryStore.CreateConversation (s : MemoryStore) (conv : Conversation) :
    MemoryStore × Nat :=
  let id := s.nextID
  let conv := { conv with id := id, startedAt := s.clock }
  ({ conversations := s.conversations ++ [(id, conv)]
     nextID := s.nextID + 1
     clock := s.clock + 1 }, id)

/-- Rewrite the conversation stored under `id` (Go mutates it through the
shared pointer). -/
def MemoryStore.update (s : MemoryStore) (id : Nat) (f : Conversation → Conversation) :
    MemoryStore :=
  { s with conversations := s.conversations.map (fun p => if p.1 = id then (p.1, f p.2) else p) }

/-- `AddMessage` stamps `CreatedAt` with the current time when it is zero. -/
def stampMsg (s : MemoryStore) (msg : StoredMessage) : StoredMessage :=
  if msg.createdAt = 0 then { msg with createdAt := s.clock } else msg

/-- `MemoryStore.AddMessage`: error when the conversation does not exist;
otherwise stamp `CreatedAt` if zero and append the message. -/
def MemoryStore.AddMessage (s : MemoryStore) (id : Nat) (msg : StoredMessage) :
    Except String MemoryStore :=
  match s.GetConversation id with
  | none => .error "conversation not found"
  | some _ =>
      .ok { s.update id (fun c => { c with messages := c.messages ++ [stampMsg s msg] }) with
              clock := s.clock + 1 }

/-- `MemoryStore.SetSummary`: error when the conversation does not exist;
otherwise overwrite `Summary` and `CompactedAt`. -/
def MemoryStore.SetSummary (s : MemoryStore) (id : Nat) (summary : String)
    (compactedAt : Nat) : Except String MemoryStore :=
  match s.GetConversation id with
  | none => .error "conversation not found"
  | some _ => .ok (s.update id (fun c => { c with summary := summary, compactedAt := compactedAt }))

/-- `MemoryStore.EndConversation`: error when the conversation does not
exist; otherwise set `EndedAt` to the current time. -/
def MemoryStore.EndConversation (s : MemoryStore) (id : Nat) : Except String MemoryStore :=
  match s.GetConversation id with
  | none => .error "conversation not found"
  | some _ =>
      .ok { s.update id (fun c => { c with endedAt := some s.clock }) with clock := s.clock + 1 }

/-! ### Chat boundary (package chat) -/

/-- `chat.InboundMessage`. -/
structure InboundMessage where
  channel : String := ""
  userID : String := ""
  externalID : String := ""
  text : String := ""
  caption : String := ""
  hasImage : Bool := false
  imageFileID : String := ""
  imageDataURL : String := ""
  replyToText : String := ""
  username : String := ""
  firstName : String := ""
  lastName : String := ""
  language : String := ""
deriving DecidableEq, Repr

/-! ### Engine (src/unnamed/part_003, package agent) -/

/-- `agent.EngineConfig` (thresholds only: the store is passed explicitly in
this state-passing embedding, and the event logger's fire-and-forget calls
cannot influence anything modelled here). -/
structure EngineConfig where
  aiRouter : Router := Router.new
  compactThreshold : Nat := 0
  compactTokenThreshold : Nat := 0
  keepRecent : Nat := 0

/-- `agent.Engine`. -/
structure Engine where
  aiRouter : Router
  compactThreshold : Nat
  compactTokenThreshold : Nat
  keepRecent : Nat

/-- `NewEngine`: zero-valued thresholds fall back to the defaults
(`defaultCompactThreshold = 20`, `defaultCompactTokenThreshold = 20000`,
`defaultKeepRecent = 6`). -/
def NewEngine (cfg : EngineConfig) : Engine :=
  { aiRouter := cfg.aiRouter
    compactThreshold := if cfg.compactThreshold = 0 then 20 else cfg.compactThreshold
    compactTokenThreshold :=
      if cfg.compactTokenThreshold = 0 then 20000 else cfg.compactTokenThreshold
    keepRecent := if cfg.keepRecent = 0 then 6 else cfg.keepRecent }

/-- `estimateTokens`: 1 token ≈ 4 characters of content; `len` in Go counts
bytes, hence `utf8ByteSize`. -/
def estimateTokens (messages : List StoredMessage) : Nat :=
  (messages.map (fun m => m.content.utf8ByteSize / 4)).sum

/-- The static system prompt of `buildSystemPrompt` (its `msg` parameter is
unused in the source). -/
def buildSystemPrompt : String :=
  "You are P&AI Bot, a friendly and encouraging mathematics tutor for Malaysian secondary school students.\n\nCURRICULUM: KSSM Matematik (Form 1, 2, 3) — focus on Algebra topics.\n\nLANGUAGE: Respond in the same language the student uses. Most students use Bahasa Melayu or English. Mix both if the student does.\n\nTEACHING STYLE:\n- Start with what the student knows, build from there\n- Use simple, relatable examples (Malaysian context: ringgit, kopitiam, school scenarios)\n- Break complex problems into small steps\n- Celebrate small wins (\"Bagus!\", \"Betul!\")\n- If the student is stuck, give a hint before the answer\n- Use mathematical notation where needed\n- Write equations in plain text (example: 6x = 30, x = 5). Do not use LaTeX delimiters like \\[ \\], \\( \\), or $$.\n- Keep responses concise — this is a chat, not a textbook\n\nRULES:\n- Never give answers without explanation\n- Always check if the student understood before moving on\n- If unsure of the student's level, ask a diagnostic question\n- If an image is attached, analyze the image content first before answering.\n- Only say you cannot identify an image when it is genuinely unreadable; in that case ask for a clearer retake.\n- If the student asks a follow-up about an earlier image but did not reply to that image (or reattach it), ask them to reply directly to the image message.\n- Be patient and never condescending"

/-- Conversion of a stored message into a prompt message, as done inside
`buildContextMessages`. -/
def toAIMessage (m : StoredMessage) : Message :=
  { role := m.role, content := m.content }

/-- `buildContextMessages`: with a summary, a synthetic user/assistant
exchange followed by the messages after the compaction point; without one,
the full message log. -/
def buildContextMessages (conv : Conversation) : List Message :=
  if conv.summary ≠ "" then
    [ { role := "user", content := "Previous conversation summary:\n" ++ conv.summary },
      { role := "assistant",
        content := "Understood, I'll continue based on our previous conversation." } ]
    ++ (conv.messages.drop conv.compactedAt).map toAIMessage
  else
    conv.messages.map toAIMessage

/-- The system prompt of the summarization request inside `maybeCompact`. -/
def summarizeSystemPrompt : String :=
  "Summarize this tutoring conversation concisely. Capture:\n- Topics discussed and key concepts\n- What the student understood or struggled with\n- Any examples or problems worked through\nKeep the summary under 150 words. Write in the same language used in the conversation."

/-- The user content of the summarization request: previous summary (if any)
followed by the messages to summarize, labelled Student/Tutor. -/
def summarizeContent (conv : Conversation) (toSummarize : List StoredMessage) : String :=
  (if conv.summary ≠ "" then
      "Previous summary:\n" ++ conv.summary ++ "\n\nNew messages to incorporate:\n"
    else "")
  ++ String.join (toSummarize.map
      (fun m => (if m.role = "assistant" then "Tutor" else "Student") ++ ": " ++ m.content ++ "\n"))

/-- The `TaskAnalysis` completion request `maybeCompact` sends to the router. -/
def summarizeRequest (conv : Conversation) (toSummarize : List StoredMessage) :
    CompletionRequest :=
  { messages := [ { role := "system", content := summarizeSystemPrompt },
                  { role := "user", content := summarizeContent conv toSummarize } ]
    maxTokens := 256
    task := .analysis }

/-- The Go local `uncompacted := conv.Messages[conv.CompactedAt:]`. -/
def uncompactedOf (conv : Conversation) : List StoredMessage :=
  conv.messages.drop conv.compactedAt

/-- The Go local `compactUpTo := len(conv.Messages) - e.keepRecent`
(an int, possibly negative). -/
def compactUpToOf (e : Engine) (conv : Conversation) : Int :=
  (conv.messages.length : Int) - (e.keepRecent : Int)

/-- The Go local `toSummarize := conv.Messages[conv.CompactedAt:compactUpTo]`. -/
def toSummarizeOf (e : Engine) (conv : Conversation) : List StoredMessage :=
  (conv.messages.take (compactUpToOf e conv).toNat).drop conv.compactedAt

/-- `Engine.maybeCompact`.  Returns the store, the (possibly updated)
conversation, and the list of router requests issued (zero or one), so that
theorems can observe whether a summarization call happened. -/
def Engine.maybeCompact (e : Engine) (store : MemoryStore) (conv : Conversation) :
    MemoryStore × Conversation × List CompletionRequest :=
  if (uncompactedOf conv).length ≤ e.compactThreshold ∧
      estimateTokens (uncompactedOf conv) ≤ e.compactTokenThreshold then
    (store, conv, [])
  else
    if compactUpToOf e conv ≤ (conv.compactedAt : Int) then
      (store, conv, [])
    else
      let upTo := (compactUpToOf e conv).toNat
      let req := summarizeRequest conv (toSummarizeOf e conv)
      match e.aiRouter.Complete req with
      | .error _ => (store, conv, [req])
      | .ok resp =>
          match store.SetSummary conv.id resp.content upTo with
          | .error _ => (store, conv, [req])
          | .ok store' =>
              (store', { conv with summary := resp.content, compactedAt := upTo }, [req])

/-- `Engine.getOrCreateConversation` (only the store field of the engine is
used).  Session-started event logging is fire-and-forget and not modelled. -/
def getOrCreateConversation (store : MemoryStore) (userID : String) :
    MemoryStore × Except String Conversation :=
  match store.GetActiveConversation userID with
  | some conv => (store, .ok conv)
  | none =>
      let created := store.CreateConversation { userID := userID, state := "teaching" }
      match created.1.GetConversation created.2 with
      | none => (created.1, .error "conversation not found")
      | some conv => (created.1, .ok conv)

/-- The user-message content built at the start of `ProcessMessage`: image
preamble and reply-quoting marker. -/
def buildUserContent (msg : InboundMessage) : String :=
  let userContent := msg.text
  let userContent :=
    if msg.hasImage then
      let uc :=
        if userContent = "" then
          "Please analyze the attached image and help me solve it step by step."
        else userContent
      "[Student attached an image]\nAnalyze the image content first, then answer the student's request.\n\n" ++ uc
    else userContent
  if msg.replyToText ≠ "" then
    "[Replying to: \"" ++ msg.replyToText ++ "\"]\n\n" ++ userContent
  else userContent

/-- The synthetic user message appended when the inbound message carries an
image data URL. -/
def imageAnalysisMessage (msg : InboundMessage) : Message :=
  { role := "user"
    content := "Attached image from the student. Analyze this image directly and answer based on what you see. If unreadable, say exactly what is unclear and how to retake it."
    imageURLs := [msg.imageDataURL] }

/-- The prompt the engine assembles for the main completion: one system
message, the conversation context, and — when an image data URL is present —
the synthetic image-analysis message. -/
def assembleMessages (msg : InboundMessage) (conv : Conversation) : List Message :=
  let base := { role := "system", content := buildSystemPrompt } :: buildContextMessages conv
  if msg.imageDataURL ≠ "" then base ++ [imageAnalysisMessage msg] else base

/-- The main (`TaskTeaching`) completion request of `ProcessMessage`. -/
def mainRequest (msg : InboundMessage) (conv : Conversation) : CompletionRequest :=
  { messages := assembleMessages msg conv
    model := if msg.imageDataURL ≠ "" then "gpt-4o" else ""
    maxTokens := 1024
    task := .teaching }

/-- The replacement pairs of `normalizeEquationFormatting`, in the argument
order given to `strings.NewReplacer` (which matters: at equal positions the
earlier pattern wins). -/
def replacerPairs : List (String × String) :=
  [("\\\\[", ""), ("\\\\]", ""), ("\\\\(", ""), ("\\\\)", ""),
   ("$$", ""),
   ("\\[", ""), ("\\]", ""), ("\\(", ""), ("\\)", ""),
   ("\\times", "x"), ("\\cdot", "*"), ("\\div", "/")]

/-- Try the replacement pairs in order at the current position. -/
def tryMatch : List (String × String) → List Char → Option (String × List Char)
  | [], _ => none
  | (p, r) :: rest, cs =>
      if p.data.isPrefixOf cs then some (r, cs.drop p.data.length)
      else tryMatch rest cs

/-- The scanning loop of `strings.Replacer.Replace`: at each position apply
the first matching pattern (non-overlapping, left to right), otherwise copy
the character.  Each match consumes at least one character, so a fuel of
`cs.length` always suffices. -/
def replaceAux : Nat → List Char → List Char
  | 0, cs => cs
  | _ + 1, [] => []
  | fuel + 1, c :: cs =>
      match tryMatch replacerPairs (c :: cs) with
      | some (r, rest) => r.data ++ replaceAux fuel rest
      | none => c :: replaceAux fuel cs

/-- `normalizeEquationFormatting`: strip LaTeX delimiters and replace
`\times`, `\cdot`, `\div` by plain operators. -/
def normalizeEquationFormatting (content : String) : String :=
  ⟨replaceAux content.data.length content.data⟩

/-- Whether `p` occurs as a contiguous substring of `s` (used to state when
`normalizeEquationFormatting` is the identity). -/
def occursIn (p : List Char) : List Char → Bool
  | [] => p.isPrefixOf ([] : List Char)
  | c :: cs => p.isPrefixOf (c :: cs) || occursIn p cs

/-- `strings.HasPrefix` / `String.startsWith`, written over the character
list so that it reduces definitionally. -/
def strStartsWith (s pre : String) : Bool :=
  pre.data.isPrefixOf s.data

/-- `strings.Split(s, " ")[0]`: the characters before the first space. -/
def takeUntilSpace : List Char → List Char
  | [] => []
  | c :: cs => if c = ' ' then [] else c :: takeUntilSpace cs

/-- The command word: `strings.Split(msg.Text, " ")[0]`. -/
def commandWord (s : String) : String :=
  ⟨takeUntilSpace s.data⟩

/-- The result of one `ProcessMessage` call: the returned text, the returned
error (nil at every return site of the source), the store afterwards, and
the router requests issued during the turn. -/
structure ProcessResult where
  text : String
  error : Option String
  store : MemoryStore
  calls : List CompletionRequest
deriving DecidableEq, Repr

/-- The fixed user-safe apology returned on conversation-load and router
failures. -/
def techApology : String :=
  "Maaf, saya sedang mengalami masalah teknikal. Cuba lagi sebentar."

/-- The fixed reply when an image arrived but no data URL could be built. -/
def imageApology : String :=
  "Saya terima gambar anda, tapi gagal memproses fail gambar itu. Cuba hantar semula gambar yang lebih jelas."

/-- `handleStart`: localized welcome with name fallback first-name →
username → "pelajar". -/
def handleStart (msg : InboundMessage) : String :=
  let name := msg.firstName
  let name := if name = "" then msg.username else name
  let name := if name = "" then "pelajar" else name
  "Hai " ++ name ++ "!\n\nSaya P&AI Bot — tutor matematik peribadi anda!\n\nSaya boleh membantu anda dengan KSSM Matematik:\n- Tingkatan 1\n- Tingkatan 2\n- Tingkatan 3\n\nApa yang anda ingin belajar hari ini?"

/-- `endActiveConversation`: end the user's active conversation if any; an
`EndConversation` error is only logged. -/
def endActiveConversation (store : MemoryStore) (userID : String) : MemoryStore :=
  match store.GetActiveConversation userID with
  | some conv =>
      match store.EndConversation conv.id with
      | .ok store' => store'
      | .error _ => store
  | none => store

/-- `handleCommand`: `/start`, `/clear`, and the unknown-command hint.  Every
branch returns a nil error and never calls the router. -/
def handleCommand (store : MemoryStore) (msg : InboundMessage) : ProcessResult :=
  let cmd := commandWord msg.text
  if cmd = "/start" then
    { text := handleStart msg, error := none
      store := endActiveConversation store msg.userID, calls := [] }
  else if cmd = "/clear" then
    { text := "Sejarah perbualan telah dikosongkan. Hantar soalan baru untuk mula semula."
      error := none, store := endActiveConversation store msg.userID, calls := [] }
  else
    { text := "Arahan tidak diketahui: " ++ cmd ++ "\nGuna /start untuk bermula atau /clear untuk reset perbualan."
      error := none, store := store, calls := [] }

/-- A failed `AddMessage` is logged but the turn continues with the old
store. -/
def addMessageOrKeep (store : MemoryStore) (id : Nat) (msg : StoredMessage) : MemoryStore :=
  match store.AddMessage id msg with
  | .ok store' => store'
  | .error _ => store

/-- Lines 126–189 of the engine source: the part of a non-command turn after
the conversation has been refreshed (`conv₁`) — compaction check, prompt
assembly, the image early-return, the main router call and assistant
persistence.  Split out of `ProcessMessage` so theorems can name it. -/
def processTurn (e : Engine) (msg : InboundMessage) (store₂ : MemoryStore)
    (conv₁ : Conversation) : ProcessResult :=
  match e.maybeCompact store₂ conv₁ with
  | (store₃, conv₂, compactionCalls) =>
      if msg.hasImage ∧ msg.imageDataURL = "" then
        { text := imageApology, error := none, store := store₃, calls := compactionCalls }
      else
        let req := mainRequest msg conv₂
        match e.aiRouter.Complete req with
        | .error _ =>
            { text := techApology, error := none, store := store₃
              calls := compactionCalls ++ [req] }
        | .ok resp =>
            let plainContent := normalizeEquationFormatting resp.content
            let store₄ := addMessageOrKeep store₃ conv₁.id
              { role := "assistant", content := plainContent, model := resp.model
                inputTokens := resp.inputTokens, outputTokens := resp.outputTokens }
            { text := plainContent, error := none, store := store₄
              calls := compactionCalls ++ [req] }

/-- `Engine.ProcessMessage`.  `none` models the nil-pointer dereference that
Go would hit after the ignored error of the conversation refresh
(`conv, _ = e.store.GetConversation(conv.ID)`): a nil conversation would be
dereferenced inside `maybeCompact`.  Every actual return site of the source
returns a nil error. -/
def Engine.ProcessMessage (e : Engine) (store : MemoryStore) (msg : InboundMessage) :
    Option ProcessResult :=
  if strStartsWith msg.text "/" then
    some (handleCommand store msg)
  else
    match getOrCreateConversation store msg.userID with
    | (store₁, .error _) =>
        some { text := techApology, error := none, store := store₁, calls := [] }
    | (store₁, .ok conv) =>
        let store₂ := addMessageOrKeep store₁ conv.id
          { role := "user", content := buildUserContent msg }
        match store₂.GetConversation conv.id with
        | none => none
        | some conv₁ => some (processTurn e msg store₂ conv₁)

/-- A store is well formed when every conversation is stored under its own
id, stored ids are below the freshness counter, and keys are duplicate-free.
Every store reachable through `MemoryStore` operations satisfies this. -/
def GoodStore (s : MemoryStore) : Prop :=
  (∀ p ∈ s.conversations, p.2.id = p.1 ∧ p.1 < s.nextID) ∧
  (s.conversations.map Prod.fst).Nodup

instance (s : MemoryStore) : Decidable (GoodStore s) := by
  unfold GoodStore
  infer_instance

/-! ### Conversation-lifecycle operations (for the single-active-conversation
invariant).  These are the store mutations the engine performs: lazy
creation through `getOrCreateConversation`, `EndConversation` (from
`/start`, `/clear`), `AddMessage` and `SetSummary` (message persistence and
compaction); errors of the latter three are logged and ignored by the
engine. -/

inductive StoreOp where
  | getOrCreate (userID : String)
  | endConv (id : Nat)
  | addMessage (id : Nat) (msg : StoredMessage)
  | setSummary (id : Nat) (summary : String) (compactedAt : Nat)
deriving DecidableEq, Repr

/-- Apply one lifecycle operation to the store. -/
def applyOp (s : MemoryStore) : StoreOp → MemoryStore
  | .getOrCreate userID => (getOrCreateConversation s userID).1
  | .endConv id =>
      match s.EndConversation id with
      | .ok s' => s'
      | .error _ => s
  | .addMessage id msg => addMessageOrKeep s id msg
  | .setSummary id summary compactedAt =>
      match s.SetSummary id summary compactedAt with
      | .ok s' => s'
      | .error _ => s

/-- Run a sequence of lifecycle operations. -/
def runOps (s : MemoryStore) (ops : List StoreOp) : MemoryStore :=
  ops.foldl applyOp s

/-- The user's conversations with `endedAt = null`. -/
def activeFor (s : MemoryStore) (userID : String) : List (Nat × Conversation) :=
  s.conversations.filter (fun p => p.2.userID == userID && p.2.endedAt.isNone)

/-- Each user has at most one active conversation (stated as: any two
active entries for a user coincide). -/
def ActiveUnique (s : MemoryStore) : Prop :=
  ∀ u p q, p ∈ activeFor s u → q ∈ activeFor s u → p = q

/-- The reachability invariant of the lifecycle operations. -/
def StoreInv (s : MemoryStore) : Prop :=
  GoodStore s ∧ ActiveUnique s

/-! ### Concrete scenario data for the compaction claim: message-count
threshold 6, keepRecent 2, a router whose single provider always succeeds. -/

def c4Provider : ProviderFun :=
  fun _ => .ok { content := "Good, let us continue.", model := "mock"
                 inputTokens := 3, outputTokens := 4 }

def c4Engine : Engine :=
  NewEngine { aiRouter := Router.new.Register "mock" c4Provider
              compactThreshold := 6, keepRecent := 2 }

def c4Msg (t : String) : InboundMessage :=
  { channel := "telegram", userID := "123", text := t }

/-- One engine turn of the scenario (the result is always `some`). -/
def c4Turn (store : MemoryStore) (t : String) : MemoryStore :=
  match c4Engine.ProcessMessage store (c4Msg t) with
  | some r => r.store
  | none => store

/-- The store after four user/assistant exchanges (8 stored messages). -/
def c4StoreAfter4 : MemoryStore :=
  c4Turn (c4Turn (c4Turn (c4Turn MemoryStore.new "q0") "q1") "q2") "q3"

/-- The conversation created by the first `getOrCreateConversation "u"` on a
fresh store (id 0, started at clock 1). -/
def wC8Conv : Conversation :=
  { id := 0, userID := "u", state := "teaching", startedAt := 1 }

/-! ### Concrete data for the compaction-check witness: threshold 2,
keepRecent 2, four stored messages, nothing compacted yet. -/

def c3Engine : Engine :=
  NewEngine { aiRouter := Router.new.Register "mock" c4Provider
              compactThreshold := 2, keepRecent := 2 }

def c3Conv : Conversation :=
  { id := 0, userID := "123", state := "teaching"
    messages := [ { role := "user", content := "q1", createdAt := 1 },
                  { role := "assistant", content := "a1", createdAt := 2 },
                  { role := "user", content := "q2", createdAt := 3 },
                  { role := "assistant", content := "a2", createdAt := 4 } ] }

def c3Store : MemoryStore :=
  { conversations := [(0, c3Conv)], nextID := 1, clock := 5 }

def c3Resp : CompletionResponse :=
  { content := "Good, let us continue.", model := "mock", inputTokens := 3, outputTokens := 4 }

/-! ### Concrete data for the prompt-assembly witness: a compacted
conversation with a summary. -/

def wC5Msg : InboundMessage := { userID := "u", text := "hello" }

def wC5Conv : Conversation :=
  { id := 0, userID := "u", state := "teaching"
    messages := [ { role := "user", content := "q1" }, { role := "assistant", content := "a1" } ]
    summary := "about algebra", compactedAt := 1 }

/-- An engine whose router has no providers: every `Complete` call fails
with the aggregate error. -/
def wC6Engine : Engine := NewEngine { aiRouter := Router.new }

/-- An engine with no providers and low compaction thresholds, so that a
turn triggers a summarization attempt that fails. -/
def wC7Engine : Engine :=
  NewEngine { aiRouter := Router.new, compactThreshold := 2, keepRecent := 2 }

def wC7Msg : InboundMessage := { channel := "telegram", userID := "123", text := "hello" }

/-- A provider response containing LaTeX delimiters, for the
normalization witness. -/
def c10Resp : CompletionResponse :=
  { content := "So \\( 6x = 30 \\), hence x = 5", model := "mock"
    inputTokens := 3, outputTokens := 4 }

/-- An engine whose single provider always succeeds with `c10Resp`. -/
def wC10Engine : Engine :=
  NewEngine { aiRouter := Router.new.Register "mock" (fun _ => .ok c10Resp) }

/-! ## Theorems -/

/-! ### Store lemmas -/

theorem find?_key_of_mem_nodup (l : List (Nat × Conversation))
    (hnd : (l.map Prod.fst).Nodup) (p : Nat × Conversation) (hp : p ∈ l) :
    l.find? (fun q => q.1 == p.1) = some p := by
  induction l with
  | nil => cases hp
  | cons hd tl ih =>
      simp only [List.map_cons, List.nodup_cons] at hnd
      rcases List.mem_cons.mp hp with h | h
      · subst h
        simp [List.find?]
      · have hne : (hd.1 == p.1) = false := by
          simp only [beq_eq_false_iff_ne, ne_eq]
          intro he
          exact hnd.1 (he ▸ List.mem_map_of_mem Prod.fst h)
        simp [List.find?, hne, ih hnd.2 h]

theorem getConversation_update (s : MemoryStore) (id id' : Nat)
    (f : Conversation → Conversation) :
    (s.update id f).GetConversation id' =
      (s.GetConversation id').map (fun c => if id' = id then f c else c) := by
  obtain ⟨l, nid, ck⟩ := s
  simp only [MemoryStore.update, MemoryStore.GetConversation]
  induction l with
  | nil => rfl
  | cons hd tl ih =>
      have hkey : (if hd.1 = id then (hd.1, f hd.2) else hd).1 = hd.1 := by
        by_cases h : hd.1 = id <;> simp [h]
      by_cases hid' : hd.1 = id'
      · have ho : (hd.1 == id') = true := by simp [hid']
        by_cases hid : hd.1 = id
        · have heq : id' = id := hid'.symm.trans hid
          simp only [List.map_cons, List.find?, hkey, ho]
          simp [hid, heq]
        · have hne : ¬ id' = id := fun he => hid (hid'.trans he)
          simp only [List.map_cons, List.find?, hkey, ho]
          simp [hid, hne]
      · have ho : (hd.1 == id') = false := by simpa using hid'
        simp only [List.map_cons, List.find?, hkey, ho]
        exact ih

theorem getActive_getConversation (s : MemoryStore) (u : String) (c : Conversation)
    (hwf : GoodStore s) (h : s.GetActiveConversation u = some c) :
    s.GetConversation c.id = some c := by
  obtain ⟨p, hp, hpc⟩ : ∃ p, s.conversations.find?
      (fun p => p.2.userID == u && p.2.endedAt.isNone) = some p ∧ p.2 = c := by
    simpa [MemoryStore.GetActiveConversation, Option.map_eq_some'] using h
  have hmem := List.mem_of_find?_eq_some hp
  have hid : c.id = p.1 := hpc ▸ (hwf.1 p hmem).1
  have : s.conversations.find? (fun q => q.1 == p.1) = some p :=
    find?_key_of_mem_nodup s.conversations hwf.2 p hmem
  simp [MemoryStore.GetConversation, hid, this, hpc]

theorem getConversation_mem (s : MemoryStore) (id : Nat) (c : Conversation)
    (h : s.GetConversation id = some c) :
    ∃ p, p ∈ s.conversations ∧ p.1 = id ∧ p.2 = c := by
  obtain ⟨p, hp, hpc⟩ : ∃ p, s.conversations.find? (fun q => q.1 == id) = some p ∧ p.2 = c := by
    simpa [MemoryStore.GetConversation, Option.map_eq_some'] using h
  refine ⟨p, List.mem_of_find?_eq_some hp, ?_, hpc⟩
  have := List.find?_some hp
  simpa using this

theorem goodStore_update (s : MemoryStore) (id : Nat) (f : Conversation → Conversation)
    (hf : ∀ c, (f c).id = c.id) (hwf : GoodStore s) : GoodStore (s.update id f) := by
  constructor
  · intro p hp
    simp only [MemoryStore.update, List.mem_map] at hp
    obtain ⟨q, hq, hqp⟩ := hp
    obtain ⟨h1, h2⟩ := hwf.1 q hq
    by_cases hid : q.1 = id
    · rw [if_pos hid] at hqp
      exact hqp ▸ ⟨by simpa [hf] using h1, by simpa using h2⟩
    · rw [if_neg hid] at hqp
      exact hqp ▸ ⟨h1, h2⟩
  · have : (s.update id f).conversations.map Prod.fst = s.conversations.map Prod.fst := by
      simp only [MemoryStore.update, List.map_map]
      refine List.map_congr_left ?_
      intro p hp
      by_cases hid : p.1 = id <;> simp [hid]
    rw [this]
    exact hwf.2

theorem goodStore_addMessageOrKeep (s : MemoryStore) (id : Nat) (m : StoredMessage)
    (hwf : GoodStore s) : GoodStore (addMessageOrKeep s id m) := by
  unfold addMessageOrKeep MemoryStore.AddMessage
  cases hg : s.GetConversation id with
  | none => exact hwf
  | some c =>
      have := goodStore_update s id (fun c => { c with messages := c.messages ++ [stampMsg s m] })
        (fun c => rfl) hwf
      exact this

theorem getConversation_setClock (s : MemoryStore) (c id : Nat) :
    (MemoryStore.GetConversation { s with clock := c } id) = s.GetConversation id := rfl

theorem addMessageOrKeep_eq (s : MemoryStore) (id : Nat) (m : StoredMessage)
    (c : Conversation) (h : s.GetConversation id = some c) :
    addMessageOrKeep s id m =
      { s.update id (fun c => { c with messages := c.messages ++ [stampMsg s m] }) with
          clock := s.clock + 1 } := by
  unfold addMessageOrKeep MemoryStore.AddMessage
  rw [h]

theorem getConversation_addMessageOrKeep (s : MemoryStore) (id : Nat) (m : StoredMessage)
    (c : Conversation) (h : s.GetConversation id = some c) :
    (addMessageOrKeep s id m).GetConversation id =
      some { c with messages := c.messages ++ [stampMsg s m] } := by
  rw [addMessageOrKeep_eq s id m c h, getConversation_setClock, getConversation_update, h]
  simp

theorem getOrCreate_active (store : MemoryStore) (u : String) (conv : Conversation)
    (h : store.GetActiveConversation u = some conv) :
    getOrCreateConversation store u = (store, .ok conv) := by
  unfold getOrCreateConversation
  rw [h]

theorem create_getConversation (store : MemoryStore) (conv : Conversation)
    (hwf : GoodStore store) :
    ((store.CreateConversation conv).1).GetConversation (store.CreateConversation conv).2 =
      some { conv with id := store.nextID, startedAt := store.clock } ∧
    GoodStore (store.CreateConversation conv).1 := by
  have hnone : store.conversations.find? (fun p => p.1 == store.nextID) = none := by
    rw [List.find?_eq_none]
    intro p hp
    simpa using Nat.ne_of_lt (hwf.1 p hp).2
  refine ⟨?_, ?_, ?_⟩
  · simp only [MemoryStore.CreateConversation, MemoryStore.GetConversation]
    rw [List.find?_append, hnone]
    simp [List.find?]
  · intro p hp
    simp only [MemoryStore.CreateConversation] at hp
    rcases List.mem_append.mp hp with h | h
    · obtain ⟨h1, h2⟩ := hwf.1 p h
      exact ⟨h1, Nat.lt_succ_of_lt h2⟩
    · rcases List.mem_singleton.mp h with rfl
      exact ⟨rfl, Nat.lt_succ_self _⟩
  · simp only [MemoryStore.CreateConversation, List.map_append, List.map_cons, List.map_nil]
    rw [List.nodup_append]
    refine ⟨hwf.2, List.nodup_singleton _, ?_⟩
    intro a ha hb
    rcases List.mem_singleton.mp hb with rfl
    obtain ⟨p, hp, hpa⟩ := List.mem_map.mp ha
    exact absurd (hpa ▸ (hwf.1 p hp).2) (lt_irrefl _)

theorem getOrCreate_ok (store : MemoryStore) (u : String) (hwf : GoodStore store) :
    ∃ store₁ conv, getOrCreateConversation store u = (store₁, .ok conv) ∧
      store₁.GetConversation conv.id = some conv ∧ GoodStore store₁ := by
  cases hact : store.GetActiveConversation u with
  | some conv =>
      exact ⟨store, conv, getOrCreate_active store u conv hact,
        getActive_getConversation store u conv hwf hact, hwf⟩
  | none =>
      obtain ⟨hget, hwf'⟩ :=
        create_getConversation store { userID := u, state := "teaching" } hwf
      refine ⟨(store.CreateConversation { userID := u, state := "teaching" }).1,
        { userID := u, state := "teaching", id := store.nextID, startedAt := store.clock },
        ?_, ?_, hwf'⟩
      · unfold getOrCreateConversation
        rw [hact]
        simp only [hget]
      · exact hget

theorem processTurn_error_none (e : Engine) (msg : InboundMessage) (s : MemoryStore)
    (c : Conversation) : (processTurn e msg s c).error = none := by
  unfold processTurn
  cases hmc : e.maybeCompact s c with
  | mk s₃ p =>
      cases p with
      | mk c₂ calls =>
          by_cases himg : msg.hasImage = true ∧ msg.imageDataURL = ""
          · simp [himg]
          · simp only [if_neg himg]
            cases e.aiRouter.Complete (mainRequest msg c₂) <;> simp

theorem handleCommand_error_none (store : MemoryStore) (msg : InboundMessage) :
    (handleCommand store msg).error = none := by
  unfold handleCommand
  by_cases h1 : commandWord msg.text = "/start"
  · simp [h1]
  · by_cases h2 : commandWord msg.text = "/clear" <;> simp [h1, h2]

/-- Resolution of a non-command turn: the refreshed conversation is the
active (or freshly created) one with the stamped user message appended, and
the turn continues as `processTurn`. -/
theorem processMessage_noncommand (e : Engine) (store : MemoryStore) (msg : InboundMessage)
    (hwf : GoodStore store) (hcmd : strStartsWith msg.text "/" = false) :
    ∃ store₁ conv,
      getOrCreateConversation store msg.userID = (store₁, .ok conv) ∧
      store₁.GetConversation conv.id = some conv ∧ GoodStore store₁ ∧
      e.ProcessMessage store msg =
        some (processTurn e msg
          (addMessageOrKeep store₁ conv.id { role := "user", content := buildUserContent msg })
          { conv with messages := conv.messages ++
              [stampMsg store₁ { role := "user", content := buildUserContent msg }] }) := by
  obtain ⟨store₁, conv, hgo, hget, hwf₁⟩ := getOrCreate_ok store msg.userID hwf
  refine ⟨store₁, conv, hgo, hget, hwf₁, ?_⟩
  have hrefresh := getConversation_addMessageOrKeep store₁ conv.id
    { role := "user", content := buildUserContent msg } conv hget
  unfold Engine.ProcessMessage
  rw [hcmd]
  simp only [Bool.false_eq_true, if_false, hgo, hrefresh]

/-- The active-conversation form of the pipeline: when the user already has
an active conversation, the turn is `processTurn` on the store with the
stamped user message appended. -/
theorem processMessage_active (e : Engine) (store : MemoryStore) (msg : InboundMessage)
    (conv : Conversation) (hwf : GoodStore store)
    (hcmd : strStartsWith msg.text "/" = false)
    (hactive : store.GetActiveConversation msg.userID = some conv) :
    e.ProcessMessage store msg =
      some (processTurn e msg
        (addMessageOrKeep store conv.id { role := "user", content := buildUserContent msg })
        { conv with messages := conv.messages ++
            [stampMsg store { role := "user", content := buildUserContent msg }] }) := by
  have hget := getActive_getConversation store msg.userID conv hwf hactive
  have hrefresh := getConversation_addMessageOrKeep store conv.id
    { role := "user", content := buildUserContent msg } conv hget
  unfold Engine.ProcessMessage
  rw [hcmd]
  simp only [Bool.false_eq_true, if_false,
    getOrCreate_active store msg.userID conv hactive, hrefresh]

/-- Every error the Router ever returns is the aggregate error:
individual provider errors are swallowed inside the fallback loop. -/
theorem completeAux_error_eq (r : Router) (req : CompletionRequest) (names : List String)
    (err : String) (h : Router.CompleteAux r req names = .error err) :
    err = "all AI providers failed" := by
  induction names with
  | nil =>
      simp only [Router.CompleteAux] at h
      injection h with h2
      exact h2.symm
  | cons name rest ih =>
      simp only [Router.CompleteAux] at h
      cases hl : mapLookup r.providers name with
      | none =>
          simp only [hl] at h
          exact ih h
      | some p =>
          simp only [hl] at h
          cases hp : p req with
          | error e' =>
              simp only [hp] at h
              exact ih h
          | ok resp =>
              simp only [hp] at h
              cases h

theorem complete_error_eq (r : Router) (req : CompletionRequest) (err : String)
    (h : r.Complete req = .error err) : err = "all AI providers failed" :=
  completeAux_error_eq r req r.fallback err h

/-- When every router call fails, `processTurn` returns the fixed apology
with a nil error. -/
theorem processTurn_router_fail (e : Engine) (msg : InboundMessage) (s : MemoryStore)
    (c : Conversation) (himg : ¬ (msg.hasImage = true ∧ msg.imageDataURL = ""))
    (hfail : ∀ req, ∃ err, e.aiRouter.Complete req = .error err) :
    (processTurn e msg s c).text = techApology ∧ (processTurn e msg s c).error = none := by
  unfold processTurn
  cases hmc : e.maybeCompact s c with
  | mk s₃ p =>
      cases p with
      | mk c₂ calls =>
          obtain ⟨err, herr⟩ := hfail (mainRequest msg c₂)
          simp [if_neg himg, herr]

/-- **C9.** For every inbound message (command or not), every router, and
every reachable store state, `ProcessMessage` returns a nil error: every
internal failure (conversation load/create, message persistence, AI
completion) is converted into a user-facing string.  Event-logger outcomes
are discarded by the fire-and-forget `logEventAsync` and cannot influence
the result. -/
theorem C9_processMessage_nil_error (e : Engine) (store : MemoryStore) (msg : InboundMessage)
    (hwf : GoodStore store) :
    ∃ r, e.ProcessMessage store msg = some r ∧ r.error = none := by
  by_cases hcmd : strStartsWith msg.text "/" = true
  · refine ⟨handleCommand store msg, ?_, handleCommand_error_none store msg⟩
    unfold Engine.ProcessMessage
    rw [hcmd]
    simp
  · have hcmd' : strStartsWith msg.text "/" = false := by simpa using hcmd
    obtain ⟨store₁, conv, hgo, hget, hwf₁, heq⟩ :=
      processMessage_noncommand e store msg hwf hcmd'
    exact ⟨_, heq, processTurn_error_none _ _ _ _⟩

/-- Witness for C9: a fresh store and a plain message. -/
theorem C9_processMessage_nil_error_witness :
    ∃ r, c4Engine.ProcessMessage MemoryStore.new (c4Msg "hello") = some r ∧ r.error = none :=
  C9_processMessage_nil_error c4Engine MemoryStore.new (c4Msg "hello") (by decide)

/-- **C6.** When the router fails (all providers exhausted), a non-command
turn returns the fixed user-safe apology with a nil error, and the returned
text never contains the router's error (the only error the router ever
surfaces is the aggregate one; individual provider errors are already
swallowed inside the router). -/
theorem C6_router_failure_apology (e : Engine) (store : MemoryStore) (msg : InboundMessage)
    (hwf : GoodStore store) (hcmd : strStartsWith msg.text "/" = false)
    (himg : ¬ (msg.hasImage = true ∧ msg.imageDataURL = ""))
    (hfail : ∀ req, ∃ err, e.aiRouter.Complete req = .error err) :
    ∃ r, e.ProcessMessage store msg = some r ∧
      r.text = techApology ∧ r.error = none ∧
      (∀ err req, e.aiRouter.Complete req = .error err →
        occursIn err.data r.text.data = false) := by
  obtain ⟨store₁, conv, hgo, hget, hwf₁, heq⟩ := processMessage_noncommand e store msg hwf hcmd
  obtain ⟨htext, herrnone⟩ := processTurn_router_fail e msg _ _ himg hfail
  refine ⟨_, heq, htext, herrnone, ?_⟩
  intro err req h'
  rw [htext, complete_error_eq e.aiRouter req err h']
  decide

/-- Witness for C6: a router with no providers, an empty store, a plain
message. -/
theorem C6_router_failure_apology_witness :
    ∃ r, wC6Engine.ProcessMessage MemoryStore.new wC5Msg = some r ∧
      r.text = techApology ∧ r.error = none ∧
      (∀ err req, wC6Engine.aiRouter.Complete req = .error err →
        occursIn err.data r.text.data = false) :=
  C6_router_failure_apology wC6Engine MemoryStore.new wC5Msg (by decide) rfl (by decide)
    (fun _ => ⟨"all AI providers failed", rfl⟩)

/-- When the summarization call fails (router error) or its persistence
fails (conversation not found), `maybeCompact` leaves both the store and
the conversation unchanged. -/
theorem maybeCompact_fail_unchanged (e : Engine) (store : MemoryStore) (conv : Conversation)
    (h : (∃ err, e.aiRouter.Complete (summarizeRequest conv (toSummarizeOf e conv)) =
            .error err) ∨
          store.GetConversation conv.id = none) :
    (e.maybeCompact store conv).1 = store ∧ (e.maybeCompact store conv).2.1 = conv := by
  unfold Engine.maybeCompact
  by_cases h1 : (uncompactedOf conv).length ≤ e.compactThreshold ∧
      estimateTokens (uncompactedOf conv) ≤ e.compactTokenThreshold
  · simp [h1]
  · rw [if_neg h1]
    by_cases h2 : compactUpToOf e conv ≤ (conv.compactedAt : Int)
    · simp [h2]
    · rw [if_neg h2]
      rcases h with ⟨err, herr⟩ | hnone
      · simp only [herr]
        exact ⟨trivial, trivial⟩
      · cases hc : e.aiRouter.Complete (summarizeRequest conv (toSummarizeOf e conv)) with
        | error e' =>
            simp only [hc]
            exact ⟨trivial, trivial⟩
        | ok resp =>
            simp only [hc, MemoryStore.SetSummary, hnone]
            exact ⟨trivial, trivial⟩

/-- **C7.** When the compaction summarization fails (router error on the
`TaskAnalysis` request, or a failed `SetSummary`), the conversation's
summary and `compactedAt` are left unchanged — in the returned conversation
and in the store — and the turn still proceeds: the main teaching
completion is still issued, built from the refreshed conversation whose
summary and compaction point are the pre-turn ones (the uncompacted
history). -/
theorem C7_compaction_failure_isolated (e : Engine) (store : MemoryStore)
    (msg : InboundMessage) (conv : Conversation) (hwf : GoodStore store)
    (hcmd : strStartsWith msg.text "/" = false)
    (himg : ¬ (msg.hasImage = true ∧ msg.imageDataURL = ""))
    (hactive : store.GetActiveConversation msg.userID = some conv)
    (hfail : ∀ req, req.task = TaskType.analysis →
      ∃ err, e.aiRouter.Complete req = .error err) :
    (∀ (store₀ : MemoryStore) (conv₀ : Conversation),
      ((∃ err, e.aiRouter.Complete (summarizeRequest conv₀ (toSummarizeOf e conv₀)) =
          .error err) ∨
        store₀.GetConversation conv₀.id = none) →
      (e.maybeCompact store₀ conv₀).1 = store₀ ∧ (e.maybeCompact store₀ conv₀).2.1 = conv₀) ∧
    (∃ r conv₁, e.ProcessMessage store msg = some r ∧ r.error = none ∧
      conv₁.summary = conv.summary ∧ conv₁.compactedAt = conv.compactedAt ∧
      conv₁.messages = conv.messages ++
        [stampMsg store { role := "user", content := buildUserContent msg }] ∧
      mainRequest msg conv₁ ∈ r.calls ∧ (mainRequest msg conv₁).task = TaskType.teaching ∧
      (r.store.GetConversation conv.id).map (fun c => (c.summary, c.compactedAt)) =
        some (conv.summary, conv.compactedAt)) := by
  refine ⟨fun store₀ conv₀ h => maybeCompact_fail_unchanged e store₀ conv₀ h, ?_⟩
  have hget := getActive_getConversation store msg.userID conv hwf hactive
  have heq := processMessage_active e store msg conv hwf hcmd hactive
  set userMsg : StoredMessage := { role := "user", content := buildUserContent msg } with huser
  set store₂ := addMessageOrKeep store conv.id userMsg with hstore₂
  set conv₁ : Conversation :=
    { conv with messages := conv.messages ++ [stampMsg store userMsg] } with hconv₁
  have hrefresh : store₂.GetConversation conv.id =
      some conv₁ := getConversation_addMessageOrKeep store conv.id userMsg conv hget
  have hunch := maybeCompact_fail_unchanged e store₂ conv₁
    (Or.inl (hfail (summarizeRequest conv₁ (toSummarizeOf e conv₁)) rfl))
  have hmc : e.maybeCompact store₂ conv₁ =
      (store₂, conv₁, (e.maybeCompact store₂ conv₁).2.2) := by
    have hx : e.maybeCompact store₂ conv₁ =
        ((e.maybeCompact store₂ conv₁).1, (e.maybeCompact store₂ conv₁).2.1,
          (e.maybeCompact store₂ conv₁).2.2) := rfl
    rw [hunch.1, hunch.2] at hx
    exact hx
  have hturn : processTurn e msg store₂ conv₁ =
      (match e.aiRouter.Complete (mainRequest msg conv₁) with
       | .error _ =>
           { text := techApology, error := none, store := store₂
             calls := (e.maybeCompact store₂ conv₁).2.2 ++ [mainRequest msg conv₁] }
       | .ok resp =>
           { text := normalizeEquationFormatting resp.content, error := none
             store := addMessageOrKeep store₂ conv₁.id
               { role := "assistant", content := normalizeEquationFormatting resp.content
                 model := resp.model, inputTokens := resp.inputTokens
                 outputTokens := resp.outputTokens }
             calls := (e.maybeCompact store₂ conv₁).2.2 ++ [mainRequest msg conv₁] }) := by
    unfold processTurn
    rw [hmc]
    simp only [if_neg himg]
  refine ⟨processTurn e msg store₂ conv₁, conv₁, heq, processTurn_error_none _ _ _ _,
    rfl, rfl, rfl, ?_, rfl, ?_⟩
  · rw [hturn]
    cases e.aiRouter.Complete (mainRequest msg conv₁) <;>
      simp
  · rw [hturn]
    cases hmain : e.aiRouter.Complete (mainRequest msg conv₁) with
    | error e' =>
        simp only
        rw [hrefresh]
        rfl
    | ok resp =>
        simp only
        have : conv₁.id = conv.id := rfl
        rw [this, getConversation_addMessageOrKeep store₂ conv.id _ conv₁ hrefresh]
        rfl

/-- Witness for C7: a router with no providers (all calls fail, including
the summarization one), low thresholds so compaction is attempted, and an
active four-message conversation. -/
theorem C7_compaction_failure_isolated_witness :
    (∀ (store₀ : MemoryStore) (conv₀ : Conversation),
      ((∃ err, wC7Engine.aiRouter.Complete
          (summarizeRequest conv₀ (toSummarizeOf wC7Engine conv₀)) = .error err) ∨
        store₀.GetConversation conv₀.id = none) →
      (wC7Engine.maybeCompact store₀ conv₀).1 = store₀ ∧
        (wC7Engine.maybeCompact store₀ conv₀).2.1 = conv₀) ∧
    (∃ r conv₁, wC7Engine.ProcessMessage c3Store wC7Msg = some r ∧ r.error = none ∧
      conv₁.summary = c3Conv.summary ∧ conv₁.compactedAt = c3Conv.compactedAt ∧
      conv₁.messages = c3Conv.messages ++
        [stampMsg c3Store { role := "user", content := buildUserContent wC7Msg }] ∧
      mainRequest wC7Msg conv₁ ∈ r.calls ∧
      (mainRequest wC7Msg conv₁).task = TaskType.teaching ∧
      (r.store.GetConversation c3Conv.id).map (fun c => (c.summary, c.compactedAt)) =
        some (c3Conv.summary, c3Conv.compactedAt)) :=
  C7_compaction_failure_isolated wC7Engine c3Store wC7Msg c3Conv (by decide) rfl (by decide)
    rfl (fun _ _ => ⟨"all AI providers failed", rfl⟩)

/-! ### Normalization lemmas -/

theorem isPrefixOf_length (p : List Char) : ∀ cs : List Char,
    p.isPrefixOf cs = true → p.length ≤ cs.length := by
  induction p with
  | nil => intro cs _; simp
  | cons a as ih =>
      intro cs h
      cases cs with
      | nil => simp [List.isPrefixOf] at h
      | cons b bs =>
          simp only [List.isPrefixOf, Bool.and_eq_true] at h
          simpa using ih bs h.2

theorem tryMatch_some (pairs : List (String × String)) (cs : List Char) (r : String)
    (rest : List Char) (h : tryMatch pairs cs = some (r, rest)) :
    ∃ p, (p, r) ∈ pairs ∧ p.data.isPrefixOf cs = true ∧ rest = cs.drop p.data.length := by
  induction pairs with
  | nil => cases h
  | cons hd tl ih =>
      obtain ⟨p₀, r₀⟩ := hd
      unfold tryMatch at h
      by_cases hp : p₀.data.isPrefixOf cs = true
      · simp only [hp, if_true] at h
        simp only [Option.some.injEq, Prod.mk.injEq] at h
        obtain ⟨rfl, rfl⟩ := h
        exact ⟨p₀, List.mem_cons_self _ _, hp, rfl⟩
      · have hb : p₀.data.isPrefixOf cs = false := by
          cases hx : p₀.data.isPrefixOf cs
          · rfl
          · exact absurd hx hp
        simp only [hb, Bool.false_eq_true, if_false] at h
        obtain ⟨p, hmem, hpre, hrest⟩ := ih h
        exact ⟨p, List.mem_cons_of_mem _ hmem, hpre, hrest⟩

theorem tryMatch_none (pairs : List (String × String)) (cs : List Char)
    (h : tryMatch pairs cs = none) :
    ∀ pr ∈ pairs, pr.1.data.isPrefixOf cs = false := by
  induction pairs with
  | nil => intro pr hpr; cases hpr
  | cons hd tl ih =>
      obtain ⟨p₀, r₀⟩ := hd
      unfold tryMatch at h
      by_cases hp : p₀.data.isPrefixOf cs = true
      · simp [hp] at h
      · have hb : p₀.data.isPrefixOf cs = false := by
          cases hx : p₀.data.isPrefixOf cs
          · rfl
          · exact absurd hx hp
        simp only [hb, Bool.false_eq_true, if_false] at h
        intro pr hpr
        rcases List.mem_cons.mp hpr with rfl | hm
        · exact hb
        · exact ih h pr hm

/-- Every replacement pair strictly shrinks: the pattern has at least two
characters and is at least one character longer than its replacement. -/
theorem replacerPairs_len :
    ∀ pr ∈ replacerPairs, pr.2.data.length + 1 ≤ pr.1.data.length ∧
      2 ≤ pr.1.data.length := by decide

theorem replaceAux_id (fuel : Nat) : ∀ cs : List Char,
    (∀ pr ∈ replacerPairs, occursIn pr.1.data cs = false) →
    replaceAux fuel cs = cs := by
  induction fuel with
  | zero => intro cs _; rfl
  | succ fuel ih =>
      intro cs h
      cases cs with
      | nil => rfl
      | cons c cs' =>
          cases htm : tryMatch replacerPairs (c :: cs') with
          | some pr =>
              obtain ⟨r, rest⟩ := pr
              obtain ⟨p, hmem, hpre, hrest⟩ := tryMatch_some _ _ _ _ htm
              have hc := h (p, r) hmem
              simp [occursIn, hpre] at hc
          | none =>
              simp only [replaceAux, htm]
              congr 1
              refine ih cs' ?_
              intro pr hpr
              have hc := h pr hpr
              simp only [occursIn, Bool.or_eq_false_iff] at hc
              exact hc.2

theorem replaceAux_length_le (fuel : Nat) : ∀ cs : List Char, cs.length ≤ fuel →
    (replaceAux fuel cs).length ≤ cs.length := by
  induction fuel with
  | zero => intro cs _; exact le_refl _
  | succ fuel ih =>
      intro cs hf
      cases cs with
      | nil => simp [replaceAux]
      | cons c cs' =>
          cases htm : tryMatch replacerPairs (c :: cs') with
          | none =>
              simp only [replaceAux, htm, List.length_cons]
              have hle : cs'.length ≤ fuel := by
                simpa using Nat.lt_succ_iff.mp (Nat.lt_of_lt_of_le (Nat.lt_succ_self _)
                  (by simpa using hf))
              exact Nat.succ_le_succ (ih cs' hle)
          | some pr =>
              obtain ⟨r, rest⟩ := pr
              obtain ⟨p, hmem, hpre, hrest⟩ := tryMatch_some _ _ _ _ htm
              obtain ⟨hshrink, htwo⟩ := replacerPairs_len (p, r) hmem
              dsimp only at hshrink htwo
              have hple : p.data.length ≤ (c :: cs').length := isPrefixOf_length _ _ hpre
              subst hrest
              have hrl : ((c :: cs').drop p.data.length).length =
                  (c :: cs').length - p.data.length := List.length_drop _ _
              have hdf : ((c :: cs').drop p.data.length).length ≤ fuel := by
                rw [hrl]
                simp only [List.length_cons] at hf hple ⊢
                omega
              have hrec := ih _ hdf
              rw [hrl] at hrec
              simp only [replaceAux, htm, List.length_append]
              simp only [List.length_cons] at hple hf hrec ⊢
              omega

theorem replaceAux_length_lt (fuel : Nat) : ∀ cs : List Char, cs.length ≤ fuel →
    (∃ pr, pr ∈ replacerPairs ∧ occursIn pr.1.data cs = true) →
    (replaceAux fuel cs).length < cs.length := by
  induction fuel with
  | zero =>
      intro cs hf h
      obtain ⟨pr, hmem, hocc⟩ := h
      have hnil : cs = [] := List.length_eq_zero.mp (Nat.le_zero.mp hf)
      subst hnil
      obtain ⟨_, htwo⟩ := replacerPairs_len pr hmem
      cases hp : pr.1.data with
      | nil => rw [hp] at htwo; simp at htwo
      | cons a as => rw [hp] at hocc; simp [occursIn, List.isPrefixOf] at hocc
  | succ fuel ih =>
      intro cs hf h
      cases cs with
      | nil =>
          obtain ⟨pr, hmem, hocc⟩ := h
          obtain ⟨_, htwo⟩ := replacerPairs_len pr hmem
          cases hp : pr.1.data with
          | nil => rw [hp] at htwo; simp at htwo
          | cons a as => rw [hp] at hocc; simp [occursIn, List.isPrefixOf] at hocc
      | cons c cs' =>
          cases htm : tryMatch replacerPairs (c :: cs') with
          | some pr =>
              obtain ⟨r, rest⟩ := pr
              obtain ⟨p, hmem, hpre, hrest⟩ := tryMatch_some _ _ _ _ htm
              obtain ⟨hshrink, htwo⟩ := replacerPairs_len (p, r) hmem
              dsimp only at hshrink htwo
              have hple : p.data.length ≤ (c :: cs').length := isPrefixOf_length _ _ hpre
              subst hrest
              have hrl : ((c :: cs').drop p.data.length).length =
                  (c :: cs').length - p.data.length := List.length_drop _ _
              have hdf : ((c :: cs').drop p.data.length).length ≤ fuel := by
                rw [hrl]
                simp only [List.length_cons] at hf hple ⊢
                omega
              have hrec := replaceAux_length_le fuel _ hdf
              rw [hrl] at hrec
              simp only [replaceAux, htm, List.length_append]
              simp only [List.length_cons] at hple hf hrec ⊢
              omega
          | none =>
              obtain ⟨pr, hmem, hocc⟩ := h
              have hpre : pr.1.data.isPrefixOf (c :: cs') = false :=
                tryMatch_none _ _ htm pr hmem
              simp only [occursIn, hpre, Bool.false_or] at hocc
              simp only [replaceAux, htm, List.length_cons]
              have hle : cs'.length ≤ fuel := by
                simp only [List.length_cons] at hf
                omega
              exact Nat.succ_lt_succ (ih cs' hle ⟨pr, hmem, hocc⟩)

/-- `normalizeEquationFormatting` is the identity exactly when none of the
twelve replacement patterns occurs in the input. -/
theorem normalize_id_iff (s : String) :
    normalizeEquationFormatting s = s ↔
      ∀ pr ∈ replacerPairs, occursIn pr.1.data s.data = false := by
  constructor
  · intro h
    by_contra hneg
    push_neg at hneg
    obtain ⟨pr, hmem, hocc⟩ := hneg
    have hocc' : occursIn pr.1.data s.data = true := by
      cases hb : occursIn pr.1.data s.data
      · exact absurd hb hocc
      · rfl
    have hlt := replaceAux_length_lt s.data.length s.data (le_refl _) ⟨pr, hmem, hocc'⟩
    have hdata : (normalizeEquationFormatting s).data = s.data := congrArg String.data h
    have : replaceAux s.data.length s.data = s.data := hdata
    rw [this] at hlt
    exact lt_irrefl _ hlt
  · intro h
    show String.mk (replaceAux s.data.length s.data) = s
    rw [replaceAux_id s.data.length s.data h]

theorem stampMsg_role (s : MemoryStore) (m : StoredMessage) :
    (stampMsg s m).role = m.role := by
  unfold stampMsg
  by_cases h : m.createdAt = 0 <;> simp [h]

theorem stampMsg_content (s : MemoryStore) (m : StoredMessage) :
    (stampMsg s m).content = m.content := by
  unfold stampMsg
  by_cases h : m.createdAt = 0 <;> simp [h]

/-- `maybeCompact` never changes the stored message log and never changes
the conversation's id. -/
theorem maybeCompact_getConversation (e : Engine) (s : MemoryStore) (c : Conversation)
    (h : s.GetConversation c.id = some c) :
    ∃ c₃, (e.maybeCompact s c).1.GetConversation c.id = some c₃ ∧
      c₃.messages = c.messages ∧ (e.maybeCompact s c).2.1.id = c.id := by
  unfold Engine.maybeCompact
  by_cases h1 : (uncompactedOf c).length ≤ e.compactThreshold ∧
      estimateTokens (uncompactedOf c) ≤ e.compactTokenThreshold
  · simp only [if_pos h1]
    exact ⟨c, h, rfl, by simp⟩
  · rw [if_neg h1]
    by_cases h2 : compactUpToOf e c ≤ (c.compactedAt : Int)
    · simp only [if_pos h2]
      exact ⟨c, h, rfl, by simp⟩
    · rw [if_neg h2]
      cases hc : e.aiRouter.Complete (summarizeRequest c (toSummarizeOf e c)) with
      | error e' =>
          simp only [hc]
          exact ⟨c, h, rfl, by simp⟩
      | ok resp =>
          simp only [hc, MemoryStore.SetSummary, h]
          refine ⟨{ c with summary := resp.content, compactedAt := (compactUpToOf e c).toNat },
            ?_, rfl, by simp⟩
          rw [getConversation_update, h]
          simp

/-- **C10.** The assistant text a successful turn returns and persists is
`normalizeEquationFormatting` of the provider's response content — not the
raw content — and normalization is the identity exactly when none of the
replacement patterns occurs in the content. -/
theorem C10_normalized_output (e : Engine) (store : MemoryStore) (msg : InboundMessage)
    (conv : Conversation) (resp : CompletionResponse)
    (hwf : GoodStore store) (hcmd : strStartsWith msg.text "/" = false)
    (himg : ¬ (msg.hasImage = true ∧ msg.imageDataURL = ""))
    (hactive : store.GetActiveConversation msg.userID = some conv)
    (hok : ∀ req, e.aiRouter.Complete req = .ok resp) :
    (∃ r, e.ProcessMessage store msg = some r ∧
      r.text = normalizeEquationFormatting resp.content ∧ r.error = none ∧
      ∃ c, r.store.GetConversation conv.id = some c ∧
        c.messages.getLast?.map (fun m => (m.role, m.content)) =
          some ("assistant", normalizeEquationFormatting resp.content)) ∧
    (∀ s : String, normalizeEquationFormatting s = s ↔
      ∀ pr ∈ replacerPairs, occursIn pr.1.data s.data = false) := by
  refine ⟨?_, normalize_id_iff⟩
  have hget := getActive_getConversation store msg.userID conv hwf hactive
  have heq := processMessage_active e store msg conv hwf hcmd hactive
  set userMsg : StoredMessage := { role := "user", content := buildUserContent msg }
    with huser
  set store₂ := addMessageOrKeep store conv.id userMsg with hstore₂
  set conv₁ : Conversation :=
    { conv with messages := conv.messages ++ [stampMsg store userMsg] } with hconv₁
  have hrefresh : store₂.GetConversation conv₁.id = some conv₁ :=
    getConversation_addMessageOrKeep store conv.id userMsg conv hget
  obtain ⟨c₃, hc₃, hc₃m, hid₂⟩ := maybeCompact_getConversation e store₂ conv₁ hrefresh
  refine ⟨processTurn e msg store₂ conv₁, heq, ?_⟩
  unfold processTurn
  cases hmc : e.maybeCompact store₂ conv₁ with
  | mk store₃ pr =>
      cases pr with
      | mk conv₂ calls =>
          rw [hmc] at hc₃
          simp only [if_neg himg, hok (mainRequest msg conv₂)]
          refine ⟨trivial, trivial, ?_⟩
          set asst : StoredMessage :=
            { role := "assistant", content := normalizeEquationFormatting resp.content
              model := resp.model, inputTokens := resp.inputTokens
              outputTokens := resp.outputTokens } with hasst
          refine ⟨{ c₃ with messages := c₃.messages ++ [stampMsg store₃ asst] },
            getConversation_addMessageOrKeep store₃ conv₁.id asst c₃ hc₃, ?_⟩
          rw [List.getLast?_concat]
          simp [stampMsg_role, stampMsg_content, hasst]

/-- Witness for C10: a provider whose content contains the LaTeX delimiters
`\( \)`; the returned and persisted text is the normalized form. -/
theorem C10_normalized_output_witness :
    (∃ r, wC10Engine.ProcessMessage c3Store wC7Msg = some r ∧
      r.text = normalizeEquationFormatting c10Resp.content ∧ r.error = none ∧
      ∃ c, r.store.GetConversation c3Conv.id = some c ∧
        c.messages.getLast?.map (fun m => (m.role, m.content)) =
          some ("assistant", normalizeEquationFormatting c10Resp.content)) ∧
    (∀ s : String, normalizeEquationFormatting s = s ↔
      ∀ pr ∈ replacerPairs, occursIn pr.1.data s.data = false) :=
  C10_normalized_output wC10Engine c3Store wC7Msg c3Conv c10Resp (by decide) rfl (by decide)
    rfl (fun _ => rfl)

/-! ### Single-active-conversation lemmas -/

theorem find?_map_of_predpres (l : List (Nat × Conversation))
    (g : Nat × Conversation → Nat × Conversation) (pred : Nat × Conversation → Bool)
    (hpres : ∀ q, pred (g q) = pred q) (p : Nat × Conversation)
    (hfind : l.find? pred = some p) : (l.map g).find? pred = some (g p) := by
  induction l with
  | nil => cases hfind
  | cons hd tl ih =>
      cases hhd : pred hd with
      | true =>
          rw [List.find?_cons_of_pos _ hhd] at hfind
          injection hfind with h'
          subst h'
          rw [List.map_cons, List.find?_cons_of_pos _ (by rw [hpres]; exact hhd)]
      | false =>
          rw [List.find?_cons_of_neg _ (by simp [hhd])] at hfind
          have hg : ¬ (pred (g hd) = true) := by rw [hpres]; simp [hhd]
          rw [List.map_cons, List.find?_cons_of_neg _ hg]
          exact ih hfind

theorem find?_map_of_mono (l : List (Nat × Conversation))
    (g : Nat × Conversation → Nat × Conversation) (pred : Nat × Conversation → Bool)
    (hmono : ∀ q, pred (g q) = true → pred q = true) (p : Nat × Conversation)
    (hfind : l.find? pred = some p) (hunch : g p = p) :
    (l.map g).find? pred = some p := by
  induction l with
  | nil => cases hfind
  | cons hd tl ih =>
      cases hhd : pred hd with
      | true =>
          rw [List.find?_cons_of_pos _ hhd] at hfind
          injection hfind with h'
          subst h'
          rw [List.map_cons, List.find?_cons_of_pos _ (by rw [hunch]; exact hhd)]
          rw [hunch]
      | false =>
          rw [List.find?_cons_of_neg _ (by simp [hhd])] at hfind
          have hg : ¬ (pred (g hd) = true) :=
            fun hgt => absurd (hmono hd hgt) (by simp [hhd])
          rw [List.map_cons, List.find?_cons_of_neg _ hg]
          exact ih hfind

theorem find?_map_none (l : List (Nat × Conversation))
    (g : Nat × Conversation → Nat × Conversation) (pred : Nat × Conversation → Bool)
    (hmono : ∀ q, pred (g q) = true → pred q = true)
    (h : l.find? pred = none) : (l.map g).find? pred = none := by
  rw [List.find?_eq_none] at h ⊢
  intro x hx
  obtain ⟨q, hq, rfl⟩ := List.mem_map.mp hx
  exact fun hgt => h q hq (hmono q hgt)

theorem getActive_none_iff (s : MemoryStore) (u : String) :
    s.GetActiveConversation u = none ↔ activeFor s u = [] := by
  unfold MemoryStore.GetActiveConversation activeFor
  rw [Option.map_eq_none', List.find?_eq_none, List.filter_eq_nil_iff]

theorem getActive_mem_activeFor (s : MemoryStore) (u : String) (p : Nat × Conversation)
    (hp : s.conversations.find? (fun p => p.2.userID == u && p.2.endedAt.isNone) = some p) :
    p ∈ activeFor s u := by
  refine List.mem_filter.mpr ⟨List.mem_of_find?_eq_some hp, ?_⟩
  have h2 := List.find?_some hp
  exact h2

theorem activeFor_length_le_one (s : MemoryStore) (hinv : StoreInv s) (u : String) :
    (activeFor s u).length ≤ 1 := by
  cases hl : activeFor s u with
  | nil => simp
  | cons x xs =>
      cases xs with
      | nil => simp
      | cons y ys =>
          have hx : x ∈ activeFor s u := by
            rw [hl]; exact List.mem_cons_self _ _
          have hy : y ∈ activeFor s u := by
            rw [hl]; exact List.mem_cons_of_mem _ (List.mem_cons_self _ _)
          have hxy := hinv.2 u x y hx hy
          have hnd : ((activeFor s u).map Prod.fst).Nodup :=
            hinv.1.2.sublist ((List.filter_sublist _).map Prod.fst)
          rw [hl] at hnd
          simp only [List.map_cons, List.nodup_cons] at hnd
          exact absurd (by rw [hxy]; exact List.mem_cons_self _ _) hnd.1

theorem getActive_clock (s : MemoryStore) (c : Nat) (u : String) :
    (MemoryStore.GetActiveConversation { s with clock := c } u) =
      s.GetActiveConversation u := rfl

theorem getOrCreate_state_active (s : MemoryStore) (u : String) (c : Conversation)
    (h : s.GetActiveConversation u = some c) : (getOrCreateConversation s u).1 = s := by
  unfold getOrCreateConversation
  rw [h]

theorem getOrCreate_state_none (s : MemoryStore) (u : String)
    (h : s.GetActiveConversation u = none) :
    (getOrCreateConversation s u).1 =
      (s.CreateConversation { userID := u, state := "teaching" }).1 := by
  unfold getOrCreateConversation
  rw [h]
  simp only []
  cases h2 : (s.CreateConversation { userID := u, state := "teaching" }).1.GetConversation
      (s.CreateConversation { userID := u, state := "teaching" }).2 <;> simp [h2]

theorem applyOp_endConv_found (s : MemoryStore) (id : Nat) (c : Conversation)
    (h : s.GetConversation id = some c) :
    applyOp s (.endConv id) =
      { s.update id (fun x => { x with endedAt := some s.clock }) with
          clock := s.clock + 1 } := by
  unfold applyOp MemoryStore.EndConversation
  simp only []
  rw [h]

theorem applyOp_endConv_notfound (s : MemoryStore) (id : Nat)
    (h : s.GetConversation id = none) : applyOp s (.endConv id) = s := by
  unfold applyOp MemoryStore.EndConversation
  simp only []
  rw [h]

theorem getActive_update_keep (s : MemoryStore) (id : Nat) (f : Conversation → Conversation)
    (u : String) (c : Conversation)
    (hkeep : ∀ x, (f x).userID = x.userID ∧ (f x).endedAt = x.endedAt ∧ (f x).id = x.id)
    (h : s.GetActiveConversation u = some c) :
    ∃ c', (s.update id f).GetActiveConversation u = some c' ∧ c'.id = c.id := by
  obtain ⟨p, hp, hpc⟩ : ∃ p, s.conversations.find?
      (fun p => p.2.userID == u && p.2.endedAt.isNone) = some p ∧ p.2 = c := by
    simpa [MemoryStore.GetActiveConversation, Option.map_eq_some'] using h
  subst hpc
  have hpres : ∀ q : Nat × Conversation,
      ((fun q : Nat × Conversation => q.2.userID == u && q.2.endedAt.isNone)
        ((fun q : Nat × Conversation => if q.1 = id then (q.1, f q.2) else q) q)) =
      ((fun q : Nat × Conversation => q.2.userID == u && q.2.endedAt.isNone) q) := by
    intro q
    by_cases hq : q.1 = id
    · simp [hq, (hkeep q.2).1, (hkeep q.2).2.1]
    · simp [hq]
  have hfind := find?_map_of_predpres s.conversations _ _ hpres p hp
  refine ⟨((fun q : Nat × Conversation => if q.1 = id then (q.1, f q.2) else q) p).2, ?_, ?_⟩
  · simp only [MemoryStore.update, MemoryStore.GetActiveConversation, hfind]
    rfl
  · by_cases hq : p.1 = id
    · simp [hq, (hkeep p.2).2.2]
    · simp [hq]

theorem getActive_update_end (s : MemoryStore) (id : Nat) (u : String) (c : Conversation)
    (t : Nat) (hwf : GoodStore s) (hne : id ≠ c.id)
    (h : s.GetActiveConversation u = some c) :
    (s.update id (fun x => { x with endedAt := some t })).GetActiveConversation u =
      some c := by
  obtain ⟨p, hp, hpc⟩ : ∃ p, s.conversations.find?
      (fun p => p.2.userID == u && p.2.endedAt.isNone) = some p ∧ p.2 = c := by
    simpa [MemoryStore.GetActiveConversation, Option.map_eq_some'] using h
  have hcid : c.id = p.1 := hpc ▸ (hwf.1 p (List.mem_of_find?_eq_some hp)).1
  have hunch : (fun q : Nat × Conversation =>
      if q.1 = id then (q.1, { q.2 with endedAt := some t }) else q) p = p := by
    simp [show ¬ p.1 = id from fun he => hne (by rw [hcid, he])]
  have hmono : ∀ q : Nat × Conversation,
      ((fun q : Nat × Conversation => q.2.userID == u && q.2.endedAt.isNone)
        ((fun q : Nat × Conversation =>
          if q.1 = id then (q.1, { q.2 with endedAt := some t }) else q) q)) = true →
      ((fun q : Nat × Conversation => q.2.userID == u && q.2.endedAt.isNone) q) = true := by
    intro q hq
    by_cases h1 : q.1 = id
    · simp [h1] at hq
    · simpa [h1] using hq
  have hfind := find?_map_of_mono s.conversations
    (fun q : Nat × Conversation =>
      if q.1 = id then (q.1, { q.2 with endedAt := some t }) else q)
    (fun q : Nat × Conversation => q.2.userID == u && q.2.endedAt.isNone) hmono p hp hunch
  simp only [MemoryStore.update, MemoryStore.GetActiveConversation, hfind]
  rw [Option.map_some', hpc]

theorem getActive_end_self (s : MemoryStore) (u : String) (c : Conversation) (t : Nat)
    (hinv : StoreInv s) (h : s.GetActiveConversation u = some c) :
    (s.update c.id (fun x => { x with endedAt := some t })).GetActiveConversation u =
      none := by
  obtain ⟨p, hp, hpc⟩ : ∃ p, s.conversations.find?
      (fun p => p.2.userID == u && p.2.endedAt.isNone) = some p ∧ p.2 = c := by
    simpa [MemoryStore.GetActiveConversation, Option.map_eq_some'] using h
  have hcid : c.id = p.1 := hpc ▸ (hinv.1.1 p (List.mem_of_find?_eq_some hp)).1
  rw [getActive_none_iff]
  simp only [activeFor, MemoryStore.update, List.filter_eq_nil_iff]
  intro x hx
  obtain ⟨q, hq, rfl⟩ := List.mem_map.mp hx
  by_cases h1 : q.1 = c.id
  · simp [h1]
  · simp only [h1, if_false]
    intro hpred
    have hq' : q ∈ activeFor s u := List.mem_filter.mpr ⟨hq, hpred⟩
    have hpmem : p ∈ activeFor s u := getActive_mem_activeFor s u p hp
    exact h1 (by rw [hinv.2 u q p hq' hpmem, ← hcid])

theorem getActive_none_update (s : MemoryStore) (id : Nat) (f : Conversation → Conversation)
    (u : String)
    (hmono : ∀ x : Conversation, ((f x).userID == u && (f x).endedAt.isNone) = true →
      (x.userID == u && x.endedAt.isNone) = true)
    (h : s.GetActiveConversation u = none) :
    (s.update id f).GetActiveConversation u = none := by
  have hfnone : s.conversations.find?
      (fun p => p.2.userID == u && p.2.endedAt.isNone) = none := by
    simpa [MemoryStore.GetActiveConversation, Option.map_eq_none'] using h
  have hmono' : ∀ q : Nat × Conversation,
      ((fun q : Nat × Conversation => q.2.userID == u && q.2.endedAt.isNone)
        ((fun q : Nat × Conversation => if q.1 = id then (q.1, f q.2) else q) q)) = true →
      ((fun q : Nat × Conversation => q.2.userID == u && q.2.endedAt.isNone) q) = true := by
    intro q hq
    by_cases h1 : q.1 = id
    · simp only [h1, if_true] at hq
      exact hmono q.2 hq
    · simpa [h1] using hq
  have := find?_map_none s.conversations _ _ hmono' hfnone
  simp only [MemoryStore.update, MemoryStore.GetActiveConversation, this, Option.map_none']

theorem getActive_create_self (s : MemoryStore) (u : String)
    (h : s.GetActiveConversation u = none) :
    (s.CreateConversation { userID := u, state := "teaching" }).1.GetActiveConversation u =
      some { userID := u, state := "teaching", id := s.nextID, startedAt := s.clock } := by
  have hfnone : s.conversations.find?
      (fun p => p.2.userID == u && p.2.endedAt.isNone) = none := by
    simpa [MemoryStore.GetActiveConversation, Option.map_eq_none'] using h
  simp only [MemoryStore.CreateConversation, MemoryStore.GetActiveConversation]
  rw [List.find?_append, hfnone]
  simp [List.find?]

theorem getActive_create_other (s : MemoryStore) (u u' : String) (hne : u' ≠ u) :
    (s.CreateConversation { userID := u, state := "teaching" }).1.GetActiveConversation u' =
      s.GetActiveConversation u' := by
  simp only [MemoryStore.CreateConversation, MemoryStore.GetActiveConversation]
  rw [List.find?_append]
  have hb : (u == u') = false := by simpa using fun he => hne he.symm
  simp [List.find?, hb]

theorem activeUnique_update (s : MemoryStore) (id : Nat) (f : Conversation → Conversation)
    (hmono : ∀ (u : String) (x : Conversation),
      ((f x).userID == u && (f x).endedAt.isNone) = true →
      (x.userID == u && x.endedAt.isNone) = true)
    (hau : ActiveUnique s) : ActiveUnique (s.update id f) := by
  intro u p q hp hq
  simp only [activeFor, MemoryStore.update, List.mem_filter, List.mem_map] at hp hq
  obtain ⟨⟨p₀, hp₀, rfl⟩, hpp⟩ := hp
  obtain ⟨⟨q₀, hq₀, rfl⟩, hqq⟩ := hq
  have hlift : ∀ x : Nat × Conversation,
      (((if x.1 = id then (x.1, f x.2) else x) : Nat × Conversation).2.userID == u &&
        ((if x.1 = id then (x.1, f x.2) else x) : Nat × Conversation).2.endedAt.isNone)
        = true →
      (x.2.userID == u && x.2.endedAt.isNone) = true := by
    intro x hx
    by_cases h1 : x.1 = id
    · simp only [h1, if_true] at hx
      exact hmono u x.2 hx
    · simpa [h1] using hx
  have hp₀' : p₀ ∈ activeFor s u := List.mem_filter.mpr ⟨hp₀, hlift p₀ hpp⟩
  have hq₀' : q₀ ∈ activeFor s u := List.mem_filter.mpr ⟨hq₀, hlift q₀ hqq⟩
  rw [hau u p₀ q₀ hp₀' hq₀']

theorem activeUnique_create (s : MemoryStore) (u : String)
    (hnone : s.GetActiveConversation u = none) (hau : ActiveUnique s) :
    ActiveUnique (s.CreateConversation { userID := u, state := "teaching" }).1 := by
  intro u' p q hp hq
  simp only [activeFor, MemoryStore.CreateConversation, List.filter_append] at hp hq
  rw [List.mem_append] at hp hq
  have hnil : s.conversations.filter
      (fun p => p.2.userID == u && p.2.endedAt.isNone) = [] :=
    (getActive_none_iff s u).mp hnone
  by_cases hu : u' = u
  · subst hu
    rw [hnil] at hp hq
    have hp' := (List.mem_filter.mp (hp.resolve_left (List.not_mem_nil p))).1
    have hq' := (List.mem_filter.mp (hq.resolve_left (List.not_mem_nil q))).1
    rw [List.mem_singleton.mp hp', List.mem_singleton.mp hq']
  · have hb : (u == u') = false := by simpa using fun he => hu he.symm
    have hflt : List.filter (fun p : Nat × Conversation =>
        p.2.userID == u' && p.2.endedAt.isNone)
        [((s.nextID, { userID := u, state := "teaching", id := s.nextID, startedAt := s.clock }) : Nat × Conversation)] = [] := by
      simp [List.filter, hb]
    rw [hflt] at hp hq
    exact hau u' p q (hp.resolve_right (List.not_mem_nil p))
      (hq.resolve_right (List.not_mem_nil q))

theorem storeInv_applyOp (s : MemoryStore) (op : StoreOp) (hinv : StoreInv s) :
    StoreInv (applyOp s op) := by
  obtain ⟨hwf, hau⟩ := hinv
  cases op with
  | getOrCreate u =>
      show StoreInv (getOrCreateConversation s u).1
      cases hact : s.GetActiveConversation u with
      | some c =>
          rw [getOrCreate_state_active s u c hact]
          exact ⟨hwf, hau⟩
      | none =>
          rw [getOrCreate_state_none s u hact]
          exact ⟨(create_getConversation s _ hwf).2, activeUnique_create s u hact hau⟩
  | endConv id =>
      cases hg : s.GetConversation id with
      | none =>
          rw [applyOp_endConv_notfound s id hg]
          exact ⟨hwf, hau⟩
      | some c =>
          rw [applyOp_endConv_found s id c hg]
          exact ⟨goodStore_update s id (fun x => { x with endedAt := some s.clock })
              (fun _ => rfl) hwf,
            activeUnique_update s id (fun x => { x with endedAt := some s.clock })
              (fun u x hx => by simp at hx) hau⟩
  | addMessage id m =>
      show StoreInv (addMessageOrKeep s id m)
      unfold addMessageOrKeep MemoryStore.AddMessage
      cases hg : s.GetConversation id with
      | none => exact ⟨hwf, hau⟩
      | some c =>
          simp only []
          exact ⟨goodStore_update s id
              (fun c => { c with messages := c.messages ++ [stampMsg s m] })
              (fun _ => rfl) hwf,
            activeUnique_update s id
              (fun c => { c with messages := c.messages ++ [stampMsg s m] })
              (fun u x hx => by simpa using hx) hau⟩
  | setSummary id sum ca =>
      show StoreInv (match s.SetSummary id sum ca with
        | .ok s' => s' | .error _ => s)
      unfold MemoryStore.SetSummary
      cases hg : s.GetConversation id with
      | none => exact ⟨hwf, hau⟩
      | some c =>
          simp only []
          exact ⟨goodStore_update s id
              (fun c => { c with summary := sum, compactedAt := ca })
              (fun _ => rfl) hwf,
            activeUnique_update s id
              (fun c => { c with summary := sum, compactedAt := ca })
              (fun u x hx => by simpa using hx) hau⟩

theorem storeInv_new : StoreInv MemoryStore.new := by
  refine ⟨⟨?_, ?_⟩, ?_⟩
  · intro p hp
    exact absurd hp (List.not_mem_nil p)
  · exact List.nodup_nil
  · intro u p q hp hq
    exact absurd hp (List.not_mem_nil p)

theorem step_active (s : MemoryStore) (u : String) (c : Conversation) (op : StoreOp)
    (hinv : StoreInv s) (hact : s.GetActiveConversation u = some c)
    (hne : op ≠ .endConv c.id) :
    ∃ c', (applyOp s op).GetActiveConversation u = some c' ∧ c'.id = c.id := by
  cases op with
  | getOrCreate u' =>
      show ∃ c', (getOrCreateConversation s u').1.GetActiveConversation u = some c' ∧
        c'.id = c.id
      cases hact' : s.GetActiveConversation u' with
      | some c₂ =>
          rw [getOrCreate_state_active s u' c₂ hact']
          exact ⟨c, hact, rfl⟩
      | none =>
          have hne' : u ≠ u' := by
            intro he
            rw [he, hact'] at hact
            cases hact
          rw [getOrCreate_state_none s u' hact', getActive_create_other s u' u hne']
          exact ⟨c, hact, rfl⟩
  | endConv id =>
      have hne' : id ≠ c.id := fun he => hne (by rw [he])
      cases hg : s.GetConversation id with
      | none =>
          rw [applyOp_endConv_notfound s id hg]
          exact ⟨c, hact, rfl⟩
      | some c₂ =>
          rw [applyOp_endConv_found s id c₂ hg, getActive_clock]
          exact ⟨c, getActive_update_end s id u c s.clock hinv.1 hne' hact, rfl⟩
  | addMessage id m =>
      show ∃ c', (addMessageOrKeep s id m).GetActiveConversation u = some c' ∧ c'.id = c.id
      unfold addMessageOrKeep MemoryStore.AddMessage
      cases hg : s.GetConversation id with
      | none => exact ⟨c, hact, rfl⟩
      | some c₂ =>
          simp only []
          rw [getActive_clock]
          exact getActive_update_keep s id _ u c (fun x => ⟨rfl, rfl, rfl⟩) hact
  | setSummary id sum ca =>
      show ∃ c', (match s.SetSummary id sum ca with
        | .ok s' => s' | .error _ => s).GetActiveConversation u = some c' ∧ c'.id = c.id
      unfold MemoryStore.SetSummary
      cases hg : s.GetConversation id with
      | none => exact ⟨c, hact, rfl⟩
      | some c₂ =>
          simp only []
          exact getActive_update_keep s id _ u c (fun x => ⟨rfl, rfl, rfl⟩) hact

theorem step_none (s : MemoryStore) (u : String) (op : StoreOp)
    (hnone : s.GetActiveConversation u = none) (hne : op ≠ .getOrCreate u) :
    (applyOp s op).GetActiveConversation u = none := by
  cases op with
  | getOrCreate u' =>
      have hne' : u ≠ u' := fun he => hne (by rw [he])
      show (getOrCreateConversation s u').1.GetActiveConversation u = none
      cases hact' : s.GetActiveConversation u' with
      | some c₂ =>
          rw [getOrCreate_state_active s u' c₂ hact']
          exact hnone
      | none =>
          rw [getOrCreate_state_none s u' hact', getActive_create_other s u' u hne']
          exact hnone
  | endConv id =>
      cases hg : s.GetConversation id with
      | none =>
          rw [applyOp_endConv_notfound s id hg]
          exact hnone
      | some c₂ =>
          rw [applyOp_endConv_found s id c₂ hg, getActive_clock]
          exact getActive_none_update s id _ u (fun x hx => by simp at hx) hnone
  | addMessage id m =>
      show (addMessageOrKeep s id m).GetActiveConversation u = none
      unfold addMessageOrKeep MemoryStore.AddMessage
      cases hg : s.GetConversation id with
      | none => exact hnone
      | some c₂ =>
          simp only []
          rw [getActive_clock]
          exact getActive_none_update s id _ u (fun x hx => by simpa using hx) hnone
  | setSummary id sum ca =>
      show (match s.SetSummary id sum ca with
        | .ok s' => s' | .error _ => s).GetActiveConversation u = none
      unfold MemoryStore.SetSummary
      cases hg : s.GetConversation id with
      | none => exact hnone
      | some c₂ =>
          simp only []
          exact getActive_none_update s id _ u (fun x hx => by simpa using hx) hnone

theorem runOps_active (ops₂ : List StoreOp) (s : MemoryStore) (u : String)
    (c : Conversation) (hinv : StoreInv s) (hact : s.GetActiveConversation u = some c)
    (hne : ∀ op ∈ ops₂, op ≠ StoreOp.endConv c.id) :
    ∃ c', (runOps s ops₂).GetActiveConversation u = some c' ∧ c'.id = c.id := by
  induction ops₂ generalizing s c with
  | nil => exact ⟨c, hact, rfl⟩
  | cons op rest ih =>
      obtain ⟨c', h', hid⟩ :=
        step_active s u c op hinv hact (hne op (List.mem_cons_self _ _))
      obtain ⟨c'', h'', hid'⟩ := ih (applyOp s op) c' (storeInv_applyOp s op hinv) h'
        (fun o ho => hid ▸ hne o (List.mem_cons_of_mem _ ho))
      exact ⟨c'', h'', hid'.trans hid⟩

theorem runOps_none (ops₂ : List StoreOp) (s : MemoryStore) (u : String)
    (hnone : s.GetActiveConversation u = none)
    (hne : ∀ op ∈ ops₂, op ≠ StoreOp.getOrCreate u) :
    (runOps s ops₂).GetActiveConversation u = none := by
  induction ops₂ generalizing s with
  | nil => exact hnone
  | cons op rest ih =>
      exact ih (applyOp s op)
        (step_none s u op hnone (hne op (List.mem_cons_self _ _)))
        (fun o ho => hne o (List.mem_cons_of_mem _ ho))

theorem storeInv_runOps (ops : List StoreOp) (s : MemoryStore) (hinv : StoreInv s) :
    StoreInv (runOps s ops) := by
  induction ops generalizing s with
  | nil => exact hinv
  | cons op rest ih => exact ih (applyOp s op) (storeInv_applyOp s op hinv)

/-- **C8.** Over the lifecycle operations the engine performs (lazy creation
via `getOrCreateConversation`, `EndConversation`, `AddMessage`,
`SetSummary`), starting from the empty store: every reachable state has at
most one active conversation per user; while user `U` has the active
conversation `c`, every operation other than ending `c` keeps `c` (same id)
as `U`'s reported active conversation; ending `c` makes
`GetActiveConversation U` report not-found, and it stays not-found under
any operations that do not create a conversation for `U`; and a
`getOrCreate` for `U` while `c` is active returns the store unchanged, still
reporting `c`. -/
theorem C8_single_active_conversation (ops : List StoreOp) (U : String) (c : Conversation)
    (hactive : (runOps MemoryStore.new ops).GetActiveConversation U = some c) :
    (∀ (opsArb : List StoreOp) (u : String),
      (activeFor (runOps MemoryStore.new opsArb) u).length ≤ 1) ∧
    (∀ ops₂, (∀ op ∈ ops₂, op ≠ StoreOp.endConv c.id) →
      ∃ c', (runOps (runOps MemoryStore.new ops) ops₂).GetActiveConversation U = some c' ∧
        c'.id = c.id) ∧
    ((applyOp (runOps MemoryStore.new ops) (StoreOp.endConv c.id)).GetActiveConversation U =
      none) ∧
    (∀ ops₂, (∀ op ∈ ops₂, op ≠ StoreOp.getOrCreate U) →
      (runOps (applyOp (runOps MemoryStore.new ops) (StoreOp.endConv c.id))
          ops₂).GetActiveConversation U = none) ∧
    ((applyOp (runOps MemoryStore.new ops) (StoreOp.getOrCreate U)).GetActiveConversation U =
      some c) := by
  have hinv := storeInv_runOps ops MemoryStore.new storeInv_new
  have hend : (applyOp (runOps MemoryStore.new ops)
      (StoreOp.endConv c.id)).GetActiveConversation U = none := by
    have hg : (runOps MemoryStore.new ops).GetConversation c.id = some c :=
      getActive_getConversation _ U c hinv.1 hactive
    rw [applyOp_endConv_found _ c.id c hg, getActive_clock]
    exact getActive_end_self _ U c _ hinv hactive
  refine ⟨?_, ?_, hend, ?_, ?_⟩
  · intro opsArb u
    exact activeFor_length_le_one _ (storeInv_runOps opsArb MemoryStore.new storeInv_new) u
  · intro ops₂ hne
    exact runOps_active ops₂ _ U c hinv hactive hne
  · intro ops₂ hne
    exact runOps_none ops₂ _ U hend hne
  · show (getOrCreateConversation _ U).1.GetActiveConversation U = some c
    rw [getOrCreate_state_active _ U c hactive]
    exact hactive

/-- Witness for C8: after a single `getOrCreate "u"` from the empty store,
"u"'s active conversation is the freshly created one (id 0). -/
theorem C8_single_active_conversation_witness :
    (∀ (opsArb : List StoreOp) (u : String),
      (activeFor (runOps MemoryStore.new opsArb) u).length ≤ 1) ∧
    (∀ ops₂, (∀ op ∈ ops₂, op ≠ StoreOp.endConv wC8Conv.id) →
      ∃ c', (runOps (runOps MemoryStore.new [StoreOp.getOrCreate "u"])
          ops₂).GetActiveConversation "u" = some c' ∧ c'.id = wC8Conv.id) ∧
    ((applyOp (runOps MemoryStore.new [StoreOp.getOrCreate "u"])
      (StoreOp.endConv wC8Conv.id)).GetActiveConversation "u" = none) ∧
    (∀ ops₂, (∀ op ∈ ops₂, op ≠ StoreOp.getOrCreate "u") →
      (runOps (applyOp (runOps MemoryStore.new [StoreOp.getOrCreate "u"])
          (StoreOp.endConv wC8Conv.id)) ops₂).GetActiveConversation "u" = none) ∧
    ((applyOp (runOps MemoryStore.new [StoreOp.getOrCreate "u"])
      (StoreOp.getOrCreate "u")).GetActiveConversation "u" = some wC8Conv) :=
  C8_single_active_conversation [StoreOp.getOrCreate "u"] "u" wC8Conv (by decide)

/-! ### Router lemmas -/

@[simp]
theorem mapLookup_insert_self (m : List (String × ProviderFun)) (k : String) (v : ProviderFun) :
    mapLookup (mapInsert m k v) k = some v := by
  induction m with
  | nil => simp [mapInsert, mapLookup]
  | cons hd tl ih =>
      by_cases h : hd.1 = k
      · simp [mapInsert, h, mapLookup]
      · simp [mapInsert, h, mapLookup, ih]

theorem mapLookup_insert_ne (m : List (String × ProviderFun)) (k k' : String) (v : ProviderFun)
    (h : k ≠ k') : mapLookup (mapInsert m k v) k' = mapLookup m k' := by
  induction m with
  | nil => simp [mapInsert, mapLookup, h]
  | cons hd tl ih =>
      by_cases hh : hd.1 = k
      · simp [mapInsert, hh, mapLookup, h]
      · simp [mapInsert, hh, mapLookup, ih]

theorem registerFold_fallback (ps : List (String × ProviderFun)) (r : Router) :
    (ps.foldl (fun r p => r.Register p.1 p.2) r).fallback = r.fallback ++ ps.map Prod.fst := by
  induction ps generalizing r with
  | nil => simp
  | cons hd tl ih =>
      rw [List.foldl_cons, ih]
      simp [Router.Register, List.append_assoc]

theorem registerFold_lookup_notMem (ps : List (String × ProviderFun)) (r : Router) (name : String)
    (h : name ∉ ps.map Prod.fst) :
    mapLookup (ps.foldl (fun r p => r.Register p.1 p.2) r).providers name =
      mapLookup r.providers name := by
  induction ps generalizing r with
  | nil => rfl
  | cons hd tl ih =>
      simp only [List.map_cons, List.mem_cons, not_or] at h
      simp only [List.foldl_cons]
      rw [ih _ h.2, Router.Register, mapLookup_insert_ne _ _ _ _ (fun he => h.1 he.symm)]

theorem registerFold_lookup_mem (ps : List (String × ProviderFun)) (r : Router)
    (p : String × ProviderFun) (hmem : p ∈ ps) (hnodup : (ps.map Prod.fst).Nodup) :
    mapLookup (ps.foldl (fun r p => r.Register p.1 p.2) r).providers p.1 = some p.2 := by
  induction ps generalizing r with
  | nil => cases hmem
  | cons hd tl ih =>
      simp only [List.map_cons, List.nodup_cons] at hnodup
      rcases List.mem_cons.mp hmem with h | h
      · subst h
        simp only [List.foldl_cons]
        rw [registerFold_lookup_notMem _ _ _ hnodup.1, Router.Register, mapLookup_insert_self]
      · simp only [List.foldl_cons]
        exact ih _ h hnodup.2

theorem completeAux_eq_tryProviders (r : Router) (req : CompletionRequest)
    (ps : List (String × ProviderFun))
    (h : ∀ p ∈ ps, mapLookup r.providers p.1 = some p.2) :
    Router.CompleteAux r req (ps.map Prod.fst) = tryProviders req (ps.map Prod.snd) := by
  induction ps with
  | nil => rfl
  | cons hd tl ih =>
      have hhd := h hd (List.mem_cons_self _ _)
      simp only [List.map_cons, Router.CompleteAux, hhd, tryProviders]
      cases hd.2 req with
      | error e => exact ih (fun p hp => h p (List.mem_cons_of_mem _ hp))
      | ok resp => rfl

/-- Routers built by registering a duplicate-free list of named providers
behave exactly like the ordered fallback loop over those providers. -/
theorem registerList_complete (ps : List (String × ProviderFun)) (req : CompletionRequest)
    (hnodup : (ps.map Prod.fst).Nodup) :
    (registerList ps).Complete req = tryProviders req (ps.map Prod.snd) := by
  rw [Router.Complete, registerList, registerFold_fallback]
  show Router.CompleteAux _ req (ps.map Prod.fst) = _
  exact completeAux_eq_tryProviders _ req ps
    (fun p hp => registerFold_lookup_mem ps Router.new p hp hnodup)

theorem tryProviders_first_success (req : CompletionRequest) (fs : List ProviderFun)
    (i : Nat) (hi : i < fs.length) (resp : CompletionResponse)
    (hfail : ∀ j (hj : j < i), ∃ e, fs.get ⟨j, hj.trans hi⟩ req = .error e)
    (hsucc : fs.get ⟨i, hi⟩ req = .ok resp) :
    tryProviders req fs = .ok resp := by
  induction fs generalizing i with
  | nil => cases hi
  | cons f rest ih =>
      cases i with
      | zero =>
          simp only [List.get] at hsucc
          simp [tryProviders, hsucc]
      | succ i' =>
          obtain ⟨e, he⟩ := hfail 0 (Nat.succ_pos _)
          simp only [List.get] at he hsucc
          simp only [tryProviders, he]
          exact ih i' (Nat.lt_of_succ_lt_succ hi) (fun j hj => hfail (j + 1) (Nat.succ_lt_succ hj))
            hsucc

theorem tryProviders_error_iff (req : CompletionRequest) (fs : List ProviderFun) :
    tryProviders req fs = .error "all AI providers failed" ↔
      ∀ f ∈ fs, ∃ e, f req = .error e := by
  induction fs with
  | nil => simp [tryProviders]
  | cons p rest ih =>
      constructor
      · intro h g hg
        rcases List.mem_cons.mp hg with hg | hg
        · subst hg
          cases hfr : g req with
          | error e => exact ⟨e, rfl⟩
          | ok resp => simp [tryProviders, hfr] at h
        · cases hfr : p req with
          | error e =>
              simp only [tryProviders, hfr] at h
              exact ih.mp h g hg
          | ok resp => simp [tryProviders, hfr] at h
      · intro h
        obtain ⟨e, he⟩ := h p (List.mem_cons_self _ _)
        simp only [tryProviders, he]
        exact ih.mpr (fun g hg => h g (List.mem_cons_of_mem _ hg))

theorem registerFold_providers_pos (ps : List (String × ProviderFun)) (r : Router)
    (h : 0 < r.providers.length) :
    0 < (ps.foldl (fun r p => r.Register p.1 p.2) r).providers.length := by
  induction ps generalizing r with
  | nil => exact h
  | cons hd tl ih =>
      refine ih _ ?_
      show 0 < (mapInsert r.providers hd.1 hd.2).length
      cases r.providers with
      | nil => simp [mapInsert]
      | cons x xs =>
          by_cases hx : x.1 = hd.1 <;> simp [mapInsert, hx]

/-- **C1.** For every router built by registering providers `ps` (in fallback
order, with distinct names) and every request: if every provider before
position `i` fails and the provider at position `i` succeeds with `resp`,
then `Router.Complete` returns exactly `resp`.  In particular, when provider
`i` fails and provider `i+1` succeeds, `Complete` returns provider `i+1`'s
response and never provider `i`'s. -/
theorem C1_router_fallback_first_success (ps : List (String × ProviderFun))
    (req : CompletionRequest) (i : Nat) (hi : i < ps.length)
    (hnodup : (ps.map Prod.fst).Nodup) (resp : CompletionResponse)
    (hfail : ∀ j (hj : j < i), ∃ e, (ps.get ⟨j, hj.trans hi⟩).2 req = .error e)
    (hsucc : (ps.get ⟨i, hi⟩).2 req = .ok resp) :
    (registerList ps).Complete req = .ok resp := by
  rw [registerList_complete ps req hnodup]
  refine tryProviders_first_success req (ps.map Prod.snd) i (by simpa using hi) resp ?_ ?_
  · intro j hj
    obtain ⟨e, he⟩ := hfail j hj
    exact ⟨e, by simpa using he⟩
  · simpa using hsucc

/-- Witness for C1: provider "a" fails, provider "b" succeeds; the router
registered with ["a", "b"] returns provider "b"'s response. -/
theorem C1_router_fallback_first_success_witness :
    (registerList [("a", pFail), ("b", pOk)]).Complete reqNil =
      .ok { content := "answer", model := "m", inputTokens := 1, outputTokens := 2 } := by
  refine C1_router_fallback_first_success [("a", pFail), ("b", pOk)] reqNil 1 (by decide)
    (by decide) _ ?_ rfl
  intro j hj
  have hj0 : j = 0 := Nat.lt_one_iff.mp hj
  subst hj0
  exact ⟨"provider down", rfl⟩

/-- **C2.** `Router.Complete` returns an error exactly when every registered
provider fails (and the error is the aggregate "all AI providers failed");
with zero registered providers it always errors; and `HasProvider` reflects
registration state (`true` iff at least one provider is registered),
independent of any call outcome — `Complete` does not modify the router. -/
theorem C2_router_error_iff_all_fail (ps : List (String × ProviderFun))
    (req : CompletionRequest) (hnodup : (ps.map Prod.fst).Nodup) :
    ((registerList ps).Complete req = .error "all AI providers failed" ↔
      ∀ p ∈ ps, ∃ e, p.2 req = .error e) ∧
    (Router.new.Complete req = .error "all AI providers failed") ∧
    ((registerList ps).HasProvider = true ↔ ps ≠ []) := by
  refine ⟨?_, rfl, ?_⟩
  · rw [registerList_complete ps req hnodup, tryProviders_error_iff]
    constructor
    · intro h p hp
      exact h p.2 (List.mem_map_of_mem Prod.snd hp)
    · intro h f hf
      obtain ⟨p, hp, hpf⟩ := List.mem_map.mp hf
      exact hpf ▸ h p hp
  · cases ps with
    | nil => simp [registerList, Router.new, Router.HasProvider]
    | cons hd tl =>
        simp only [Router.HasProvider, decide_eq_true_eq, ne_eq, reduceCtorEq,
          not_false_eq_true, iff_true]
        rw [registerList]
        simp only [List.foldl_cons]
        refine registerFold_providers_pos tl _ ?_
        show 0 < (mapInsert Router.new.providers hd.1 hd.2).length
        simp [Router.new, mapInsert]

/-- **C3.** The compaction check: it does nothing when the uncompacted tail
`messages[compactedAt:]` is within both thresholds; otherwise it computes
`compactUpTo = len(messages) − keepRecent` and changes nothing when
`compactUpTo ≤ compactedAt`; otherwise, when the summarization call
succeeds, it persists the new summary and sets `compactedAt` to exactly
`compactUpTo` (both on the returned conversation and in the store). -/
theorem C3_maybeCompact_spec (e : Engine) (store : MemoryStore) (conv : Conversation) :
    (((uncompactedOf conv).length ≤ e.compactThreshold ∧
        estimateTokens (uncompactedOf conv) ≤ e.compactTokenThreshold) →
      e.maybeCompact store conv = (store, conv, [])) ∧
    (¬ ((uncompactedOf conv).length ≤ e.compactThreshold ∧
        estimateTokens (uncompactedOf conv) ≤ e.compactTokenThreshold) →
      compactUpToOf e conv ≤ (conv.compactedAt : Int) →
      e.maybeCompact store conv = (store, conv, [])) ∧
    (∀ resp : CompletionResponse,
      ¬ ((uncompactedOf conv).length ≤ e.compactThreshold ∧
          estimateTokens (uncompactedOf conv) ≤ e.compactTokenThreshold) →
      (conv.compactedAt : Int) < compactUpToOf e conv →
      e.aiRouter.Complete (summarizeRequest conv (toSummarizeOf e conv)) = .ok resp →
      (store.GetConversation conv.id).isSome →
      e.maybeCompact store conv =
        (store.update conv.id
            (fun c => { c with summary := resp.content
                               compactedAt := (compactUpToOf e conv).toNat }),
         { conv with summary := resp.content, compactedAt := (compactUpToOf e conv).toNat },
         [summarizeRequest conv (toSummarizeOf e conv)]) ∧
      ((store.update conv.id
            (fun c => { c with summary := resp.content
                               compactedAt := (compactUpToOf e conv).toNat })).GetConversation
          conv.id).map (fun c => (c.summary, c.compactedAt)) =
        some (resp.content, (compactUpToOf e conv).toNat)) := by
  refine ⟨?_, ?_, ?_⟩
  · intro h
    unfold Engine.maybeCompact
    rw [if_pos h]
  · intro h1 h2
    unfold Engine.maybeCompact
    rw [if_neg h1, if_pos h2]
  · intro resp h1 h2 hcomp hsome
    obtain ⟨c₀, hc₀⟩ := Option.isSome_iff_exists.mp hsome
    constructor
    · unfold Engine.maybeCompact
      rw [if_neg h1, if_neg (not_le.mpr h2)]
      simp only [hcomp, MemoryStore.SetSummary, hc₀]
    · rw [getConversation_update, hc₀]
      simp

/-- Witness for C3 (third case): thresholds exceeded, summarization
succeeds, the summary is persisted and `compactedAt` becomes
`4 − 2 = 2`. -/
theorem C3_maybeCompact_spec_witness :
    c3Engine.maybeCompact c3Store c3Conv =
      (c3Store.update c3Conv.id
          (fun c => { c with summary := "Good, let us continue.", compactedAt := 2 }),
       { c3Conv with summary := "Good, let us continue.", compactedAt := 2 },
       [summarizeRequest c3Conv (toSummarizeOf c3Engine c3Conv)]) ∧
    ((c3Store.update c3Conv.id
        (fun c => { c with summary := "Good, let us continue.", compactedAt := 2 })).GetConversation
      c3Conv.id).map (fun c => (c.summary, c.compactedAt)) =
      some ("Good, let us continue.", 2) :=
  (C3_maybeCompact_spec c3Engine c3Store c3Conv).2.2 c3Resp (by decide) (by decide) rfl
    (by decide)

/-- **C4.** With a message-count threshold of 6 and keepRecent 2 and a
summarization router call that succeeds: after the engine processes 4
user/assistant exchanges (8 stored messages), the conversation's summary is
non-empty and `compactedAt` is strictly between 0 and 8; the next turn,
which adds only 2 more messages, issues no second summarization
(`TaskAnalysis`) call — its only router request is the main teaching one. -/
theorem C4_compaction_scenario :
    (∃ conv, c4StoreAfter4.GetActiveConversation "123" = some conv ∧
      conv.summary ≠ "" ∧ 0 < conv.compactedAt ∧ conv.compactedAt < 8 ∧
      conv.messages.length = 8) ∧
    (∃ r, c4Engine.ProcessMessage c4StoreAfter4 (c4Msg "q4") = some r ∧
      r.calls.map (fun req => req.task) = [TaskType.teaching] ∧
      r.calls.filter (fun req => req.task == TaskType.analysis) = []) := by
  constructor
  · refine ⟨(c4StoreAfter4.GetActiveConversation "123").get (by decide),
      (Option.some_get _).symm, ?_, ?_, ?_, ?_⟩ <;> decide
  · refine ⟨(c4Engine.ProcessMessage c4StoreAfter4 (c4Msg "q4")).get (by decide),
      (Option.some_get _).symm, ?_, ?_⟩ <;> decide

theorem filter_system_toAI (l : List StoredMessage) (h : ∀ m ∈ l, m.role ≠ "system") :
    (l.map toAIMessage).filter (fun m => m.role == "system") = [] := by
  induction l with
  | nil => rfl
  | cons hd tl ih =>
      have hb : ((toAIMessage hd).role == "system") = false := by
        simpa [toAIMessage] using h hd (List.mem_cons_self _ _)
      simp only [List.map_cons, List.filter_cons, hb]
      simp only [Bool.false_eq_true, if_false]
      exact ih (fun m hm => h m (List.mem_cons_of_mem _ hm))

/-- **C5.** The prompt assembled for the main completion of a text message
starts with exactly one system message; with a non-empty summary it
continues with the synthetic "Previous conversation summary:" user message
and the assistant acknowledgment followed by only the messages at indices
`≥ compactedAt`; with an empty summary it continues with the full message
log.  (The hypothesis on stored roles holds for every conversation the
engine builds: it only stores "user" and "assistant" messages.) -/
theorem C5_prompt_assembly (msg : InboundMessage) (conv : Conversation)
    (himg : msg.imageDataURL = "")
    (hroles : ∀ m ∈ conv.messages, m.role ≠ "system") :
    (assembleMessages msg conv).head? =
      some { role := "system", content := buildSystemPrompt } ∧
    ((assembleMessages msg conv).filter (fun m => m.role == "system")).length = 1 ∧
    (conv.summary ≠ "" →
      assembleMessages msg conv =
        { role := "system", content := buildSystemPrompt } ::
        { role := "user", content := "Previous conversation summary:\n" ++ conv.summary } ::
        { role := "assistant"
          content := "Understood, I'll continue based on our previous conversation." } ::
        (conv.messages.drop conv.compactedAt).map toAIMessage) ∧
    (conv.summary = "" →
      assembleMessages msg conv =
        { role := "system", content := buildSystemPrompt } :: conv.messages.map toAIMessage) := by
  have hbase : assembleMessages msg conv =
      { role := "system", content := buildSystemPrompt } :: buildContextMessages conv := by
    unfold assembleMessages
    rw [if_neg (by simp [himg])]
  have hdroles : ∀ m ∈ conv.messages.drop conv.compactedAt, m.role ≠ "system" :=
    fun m hm => hroles m (List.mem_of_mem_drop hm)
  by_cases hs : conv.summary = ""
  · have hctx : buildContextMessages conv = conv.messages.map toAIMessage := by
      unfold buildContextMessages
      rw [if_neg (by simp [hs])]
    refine ⟨?_, ?_, fun h => absurd hs h, fun _ => by rw [hbase, hctx]⟩
    · rw [hbase]; rfl
    · rw [hbase, hctx]
      simp [List.filter_cons, filter_system_toAI conv.messages hroles]
  · have hctx : buildContextMessages conv =
        { role := "user", content := "Previous conversation summary:\n" ++ conv.summary } ::
        { role := "assistant"
          content := "Understood, I'll continue based on our previous conversation." } ::
        (conv.messages.drop conv.compactedAt).map toAIMessage := by
      unfold buildContextMessages
      rw [if_pos hs]
      rfl
    refine ⟨?_, ?_, fun _ => by rw [hbase, hctx], fun h => absurd h hs⟩
    · rw [hbase]; rfl
    · rw [hbase, hctx]
      simp only [List.filter_cons,
        show (("system" : String) == "system") = true from rfl,
        show (("user" : String) == "system") = false from rfl,
        show (("assistant" : String) == "system") = false from rfl,
        if_true, Bool.false_eq_true, if_false]
      rw [filter_system_toAI _ hdroles]
      rfl

/-- Witness for C5: a conversation with summary "about algebra" and
`compactedAt = 1`; the prompt is the system message, the summary exchange,
and the single message after the compaction point. -/
theorem C5_prompt_assembly_witness :
    (assembleMessages wC5Msg wC5Conv).head? =
      some { role := "system", content := buildSystemPrompt } ∧
    ((assembleMessages wC5Msg wC5Conv).filter (fun m => m.role == "system")).length = 1 ∧
    (wC5Conv.summary ≠ "" →
      assembleMessages wC5Msg wC5Conv =
        { role := "system", content := buildSystemPrompt } ::
        { role := "user", content := "Previous conversation summary:\n" ++ wC5Conv.summary } ::
        { role := "assistant"
          content := "Understood, I'll continue based on our previous conversation." } ::
        (wC5Conv.messages.drop wC5Conv.compactedAt).map toAIMessage) ∧
    (wC5Conv.summary = "" →
      assembleMessages wC5Msg wC5Conv =
        { role := "system", content := buildSystemPrompt } :: wC5Conv.messages.map toAIMessage) :=
  C5_prompt_assembly wC5Msg wC5Conv rfl (by decide)

/-- Witness for C2: both providers fail, `Complete` returns the aggregate
error, and `HasProvider` still reports true. -/
theorem C2_router_error_iff_all_fail_witness :
    ((registerList [("a", pFail), ("b", pFail)]).Complete reqNil =
        .error "all AI providers failed" ↔
      ∀ p ∈ [("a", pFail), ("b", pFail)], ∃ e, p.2 reqNil = .error e) ∧
    (Router.new.Complete reqNil = .error "all AI providers failed") ∧
    ((registerList [("a", pFail), ("b", pFail)]).HasProvider = true ↔
      ([("a", pFail), ("b", pFail)] : List (String × ProviderFun)) ≠ []) :=
  C2_router_error_iff_all_fail [("a", pFail), ("b", pFail)] reqNil (by decide)

end Pai
